import Mathlib

/-!
Shallow embedding of the chess engine in `src/ai.js` (class `ChessEngine`
plus its module-level helpers), together with proofs about the claims of
the specification.  The board is the 8x8 array of the source, a cell being
the empty string (modelled `none`) or a piece character; coordinates are
JS numbers, modelled as `Int` because the source freely forms `r + dr`
with negative deltas and guards with `onBoard`.  The halfmove/fullmove
clocks are `Option Int`, `none` modelling the JS `NaN` that `parseInt`
can produce (NaN propagates through `++` and never satisfies `>=`).
-/

namespace Kaiser

/-- A board cell: `none` models the empty string, `some c` a piece character. -/
abbrev Cell := Option Char

/-- The 8x8 board `S.board` of the source: a list of 8 rows of 8 cells. -/
abbrev Board := List (List Cell)

/-- The four castling-rights booleans of `S.castling`. -/
structure Castling where
  wK : Bool
  wQ : Bool
  bK : Bool
  bQ : Bool
deriving DecidableEq, Repr

/-- The engine position state produced by `parseFEN` and mutated by `doMove`. -/
structure GameState where
  board : Board
  activeColor : Char
  castling : Castling
  enPassant : Option (Int × Int)
  halfmove : Option Int
  fullmove : Option Int
deriving DecidableEq, Repr

/-- `oppositeColor` of the source. -/
def oppositeColor (c : Char) : Char := if c = 'w' then 'b' else 'w'

/-- `pieceColor` of the source, on a definite piece character
(the `null` case for an empty cell is handled at each call site). -/
def pieceColor (p : Char) : Char := if p.toUpper = p then 'w' else 'b'

/-- `onBoard(r, c)` of the source. -/
def onBoard (r c : Int) : Bool := 0 ≤ r && r < 8 && 0 ≤ c && c < 8

/-- Read `S.board[r][c]`; out-of-range reads give the empty cell (every
read in the source is guarded by `onBoard` or by construction in range). -/
def getCell (B : Board) (r c : Int) : Cell :=
  if 0 ≤ r ∧ r < 8 ∧ 0 ≤ c ∧ c < 8 then (B.getD r.toNat []).getD c.toNat none
  else none

/-- Write `S.board[r][c] = v`; out-of-range writes are ignored (every
write in the source is in range for the moves the engine constructs). -/
def setCell (B : Board) (r c : Int) (v : Cell) : Board :=
  if 0 ≤ r ∧ r < 8 ∧ 0 ≤ c ∧ c < 8 then
    B.set r.toNat ((B.getD r.toNat []).set c.toNat v)
  else B

/-- Castle side recorded in `m.flags.castle` (the strings "K" / "Q"). -/
inductive CastleSide
  | K
  | Q
deriving DecidableEq, Repr

/-- The `flags` object of a generated move. -/
structure MoveFlags where
  double : Bool
  enpassant : Bool
  castle : Option CastleSide
deriving DecidableEq, Repr

/-- Empty `flags: {}` object. -/
def noFlags : MoveFlags := ⟨false, false, none⟩

/-- `flags: { double: true }`. -/
def doubleFlag : MoveFlags := ⟨true, false, none⟩

/-- `flags: { enpassant: true }`. -/
def epFlag : MoveFlags := ⟨false, true, none⟩

/-- `flags: { castle: "K" }` or `{ castle: "Q" }`. -/
def castleFlag (s : CastleSide) : MoveFlags := ⟨false, false, some s⟩

/-- A move object as produced by the generators of the source. -/
structure Move where
  fromSq : Int × Int
  toSq : Int × Int
  piece : Char
  capture : Cell
  promotion : Option Char
  flags : MoveFlags
deriving DecidableEq, Repr

/-! ## FEN parsing (`parseFEN`) -/

/-- Whitespace for the `\s` class of the split regex and `trim`. -/
def isWs (c : Char) : Bool := c.isWhitespace

/-- `String.prototype.trim`. -/
def trimWs (s : List Char) : List Char :=
  ((s.dropWhile isWs).reverse.dropWhile isWs).reverse

/-- Split at every character satisfying `p`, keeping empty chunks
(the semantics of splitting on a single-character separator). -/
def splitAny (p : Char → Bool) (s : List Char) : List (List Char) :=
  s.foldr
    (fun c acc =>
      if p c then [] :: acc
      else
        match acc with
        | [] => [[c]]
        | f :: rest => (c :: f) :: rest)
    [[]]

/-- `trimmed.split(/\s+/)`: on a trimmed string, runs of whitespace
separate fields and no empty field appears, which equals splitting on
each whitespace character and dropping empty chunks.  (On the empty
string JS yields one empty field and this yields none; both fail the
six-field check of `parseFEN` identically.) -/
def splitWsF (s : List Char) : List (List Char) :=
  (splitAny isWs s).filter (fun f => !f.isEmpty)

/-- `piecePlacement.split("/")` (empty chunks kept, as in JS). -/
def splitSlash (s : List Char) : List (List Char) := splitAny (· = '/') s

/-- The regex test `/[1-8]/`. -/
def isDigit18 (c : Char) : Bool := '1' ≤ c && c ≤ '8'

/-- The regex test `/[prnbqkPRNBQK]/`. -/
def isPieceChar (c : Char) : Bool :=
  c ∈ ['p', 'r', 'n', 'b', 'q', 'k', 'P', 'R', 'N', 'B', 'Q', 'K']

/-- Numeric value of a digit character. -/
def digitVal (c : Char) : Nat := c.toNat - '0'.toNat

/-- The per-rank loop of `parseFEN`: `k` is `fileIndex`, `row` the row of
`newBoard` being filled (initially eight empty cells). -/
def parseRankGo : Nat → List Cell → List Char → Except String (List Cell)
  | k, row, [] =>
      if k = 8 then .ok row else .error "Invalid FEN: rank does not fill 8 files."
  | k, row, ch :: rest =>
      if isDigit18 ch then parseRankGo (k + digitVal ch) row rest
      else if isPieceChar ch then
        if 8 ≤ k then .error "Invalid FEN: too many squares on rank."
        else parseRankGo (k + 1) (row.set k (some ch)) rest
      else .error "Invalid FEN: unexpected character."

/-- Parse one rank of the piece-placement field. -/
def parseRank (s : List Char) : Except String (List Cell) :=
  parseRankGo 0 (List.replicate 8 none) s

/-- Longest digit prefix with optional sign: `parseInt(s, 10)`;
`none` is the JS `NaN`. -/
def jsParseInt (s : List Char) : Option Int :=
  let core : List Char → Option Nat := fun t =>
    let d := t.takeWhile Char.isDigit
    if d.isEmpty then none
    else some (d.foldl (fun a c => a * 10 + digitVal c) 0)
  match s with
  | '+' :: r => (core r).map Int.ofNat
  | '-' :: r => (core r).map (fun n => -(Int.ofNat n))
  | _ => (core s).map Int.ofNat

/-- Nonempty all-digit list. -/
def digits1 (s : List Char) : Bool := !s.isEmpty && s.all Char.isDigit

/-- Exponent-sign tail: digits with optional leading sign. -/
def signedDigits (s : List Char) : Bool :=
  match s with
  | '+' :: r => digits1 r
  | '-' :: r => digits1 r
  | _ => digits1 s

/-- Optional exponent suffix of a JS decimal literal. -/
def expOk (s : List Char) : Bool :=
  match s with
  | [] => true
  | c :: r => (c = 'e' || c = 'E') && signedDigits r

/-- Decimal mantissa with optional fraction and exponent, or Infinity. -/
def numTail (s : List Char) : Bool :=
  if s = ['I', 'n', 'f', 'i', 'n', 'i', 't', 'y'] then true
  else
    let d1 := s.takeWhile Char.isDigit
    let r1 := s.dropWhile Char.isDigit
    match r1 with
    | '.' :: r2 =>
        let d2 := r2.takeWhile Char.isDigit
        let r3 := r2.dropWhile Char.isDigit
        (!d1.isEmpty || !d2.isEmpty) && expOk r3
    | _ => !d1.isEmpty && expOk r1

/-- Radix-prefixed integer literal (0x / 0o / 0b). -/
def radixNum (s : List Char) : Bool :=
  match s with
  | '0' :: c :: r =>
      if c = 'x' || c = 'X' then digits1 r || (!r.isEmpty && r.all (fun d => d.isDigit || ('a' ≤ d.toLower && d.toLower ≤ 'f')))
      else if c = 'o' || c = 'O' then !r.isEmpty && r.all (fun d => '0' ≤ d && d ≤ '7')
      else if c = 'b' || c = 'B' then !r.isEmpty && r.all (fun d => d = '0' || d = '1')
      else false
  | _ => false

/-- Whether `Number(s)` is a number (not NaN), for the whitespace-free
strings that FEN fields can be: the empty string is 0, otherwise an
optionally signed decimal literal, a signed Infinity, or an unsigned
radix-prefixed literal. -/
def jsNumberDefined (s : List Char) : Bool :=
  if s.isEmpty then true
  else
    match s with
    | '+' :: r => numTail r
    | '-' :: r => numTail r
    | _ => radixNum s || numTail s

/-- The en-passant field test `/^[a-h][36]$/` plus square decoding. -/
def parseEp (s : List Char) : Except String (Option (Int × Int)) :=
  if s = ['-'] then .ok none
  else
    match s with
    | [f, rk] =>
        if ('a' ≤ f && f ≤ 'h') && (rk = '3' || rk = '6') then
          .ok (some ((8 : Int) - (digitVal rk : Int), (f.toNat : Int) - ('a'.toNat : Int)))
        else .error "Invalid FEN: bad en-passant square."
    | _ => .error "Invalid FEN: bad en-passant square."

/-- `parseFEN` of the source, over the characters of the input string. -/
def parseFEN (input : List Char) : Except String GameState :=
  match splitWsF (trimWs input) with
  | [placement, colorF, castF, epF, hmF, fmF] =>
      let ranks := splitSlash placement
      if ranks.length = 8 then
        match ranks.mapM parseRank with
        | .error e => .error e
        | .ok board =>
            if colorF = ['w'] || colorF = ['b'] then
              let activeColor := if colorF = ['w'] then 'w' else 'b'
              let castling : Castling :=
                ⟨decide ('K' ∈ castF), decide ('Q' ∈ castF),
                 decide ('k' ∈ castF), decide ('q' ∈ castF)⟩
              match parseEp epF with
              | .error e => .error e
              | .ok ep =>
                  let halfmove := if jsNumberDefined hmF then jsParseInt hmF else some 0
                  let fullmove := if jsNumberDefined fmF then jsParseInt fmF else some 1
                  .ok ⟨board, activeColor, castling, ep, halfmove, fullmove⟩
            else .error "Invalid FEN: active color must be w or b."
      else .error "Invalid FEN: must have 8 ranks."
  | _ => .error "Invalid FEN: must have 6 fields."

/-! ## Position key (`positionKey`) -/

/-- One digit character for an empty-run length (runs in an 8-cell row
are at most 8, so a single digit as in the source string coercion). -/
def runDigit (e : Nat) : Char := Char.ofNat ('0'.toNat + e)

/-- The per-row loop of `positionKey`: `e` is the pending `empty` count. -/
def encRowGo : Nat → List Cell → List Char
  | e, [] => if 0 < e then [runDigit e] else []
  | e, none :: cs => encRowGo (e + 1) cs
  | e, some p :: cs => (if 0 < e then [runDigit e] else []) ++ p :: encRowGo 0 cs

/-- Encode one row for the key. -/
def encRow (row : List Cell) : List Char := encRowGo 0 row

/-- `positionKey` of the source: placement, side, castling, en-passant,
clocks excluded.  The en-passant square prints as file letter plus
`8 - row` (in range for every state the engine builds). -/
def positionKey (S : GameState) : List Char :=
  let rows := List.intercalate ['/'] (S.board.map encRow)
  let castChars :=
    (if S.castling.wK then ['K'] else []) ++ (if S.castling.wQ then ['Q'] else []) ++
    (if S.castling.bK then ['k'] else []) ++ (if S.castling.bQ then ['q'] else [])
  let castStr := if castChars = [] then ['-'] else castChars
  let ep :=
    match S.enPassant with
    | none => ['-']
    | some (r, c) => [Char.ofNat ('a'.toNat + c.toNat), runDigit (8 - r).toNat]
  rows ++ ' ' :: S.activeColor :: ' ' :: castStr ++ ' ' :: ep

/-! ## Move generation -/

/-- Convenience constructor mirroring the object literals of the source. -/
def mkMove (fr fc tr tc : Int) (p : Char) (cap : Cell) (promo : Option Char)
    (fl : MoveFlags) : Move :=
  ⟨(fr, fc), (tr, tc), p, cap, promo, fl⟩

/-- The promotion kinds pushed for a pawn reaching the last rank. -/
def promoKinds : List Char := ['q', 'r', 'b', 'n']

/-- `pawnMoves` of the source. -/
def pawnMoves (S : GameState) (r c : Int) : List Move :=
  match getCell S.board r c with
  | none => []
  | some p =>
      let col := pieceColor p
      let dir : Int := if col = 'w' then -1 else 1
      let startRow : Int := if col = 'w' then 6 else 1
      let enemy := oppositeColor col
      let aheadR := r + dir
      let pushes :=
        if onBoard aheadR c && (getCell S.board aheadR c).isNone then
          (if aheadR = 0 || aheadR = 7 then
            promoKinds.map (fun promo => mkMove r c aheadR c p none (some promo) noFlags)
          else [mkMove r c aheadR c p none none noFlags]) ++
          (if r = startRow then
            let twoR := r + 2 * dir
            if (getCell S.board twoR c).isNone then
              [mkMove r c twoR c p none none doubleFlag]
            else []
          else [])
        else []
      let caps :=
        ([-1, 1] : List Int).flatMap (fun dc =>
          let nc := c + dc
          let nr := r + dir
          if onBoard nr nc then
            (match getCell S.board nr nc with
             | some target =>
                 if pieceColor target = enemy then
                   if nr = 0 || nr = 7 then
                     promoKinds.map (fun promo =>
                       mkMove r c nr nc p (some target) (some promo) noFlags)
                   else [mkMove r c nr nc p (some target) none noFlags]
                 else []
             | none => []) ++
            (if S.enPassant = some (nr, nc) then
              [mkMove r c nr nc p (some (if col = 'w' then 'p' else 'P')) none epFlag]
            else [])
          else [])
      pushes ++ caps

/-- The knight offsets of the source. -/
def knightDeltas : List (Int × Int) :=
  [(2, 1), (2, -1), (-2, 1), (-2, -1), (1, 2), (1, -2), (-1, 2), (-1, -2)]

/-- `knightMoves` of the source. -/
def knightMoves (S : GameState) (r c : Int) : List Move :=
  match getCell S.board r c with
  | none => []
  | some p =>
      let enemy := oppositeColor (pieceColor p)
      knightDeltas.flatMap (fun d =>
        let nr := r + d.1
        let nc := c + d.2
        if onBoard nr nc then
          match getCell S.board nr nc with
          | none => [mkMove r c nr nc p none none noFlags]
          | some t =>
              if pieceColor t = enemy then [mkMove r c nr nc p (some t) none noFlags]
              else []
        else [])

/-- One ray of `slidingMoves`; the fuel 8 exceeds any ray on an 8-wide board. -/
def slideRayGo (S : GameState) (r c : Int) (p : Char) (enemy : Char)
    (dr dc : Int) : Nat → Int → Int → List Move
  | 0, _, _ => []
  | fuel + 1, nr, nc =>
      if onBoard nr nc then
        match getCell S.board nr nc with
        | none =>
            mkMove r c nr nc p none none noFlags ::
              slideRayGo S r c p enemy dr dc fuel (nr + dr) (nc + dc)
        | some t =>
            if pieceColor t = enemy then [mkMove r c nr nc p (some t) none noFlags]
            else []
      else []

/-- `slidingMoves` of the source. -/
def slidingMoves (S : GameState) (r c : Int) (dirs : List (Int × Int)) : List Move :=
  match getCell S.board r c with
  | none => []
  | some p =>
      let enemy := oppositeColor (pieceColor p)
      dirs.flatMap (fun d => slideRayGo S r c p enemy d.1 d.2 8 (r + d.1) (c + d.2))

/-- The bishop directions of the source, in source order. -/
def diagDirs : List (Int × Int) := [(1, 1), (1, -1), (-1, 1), (-1, -1)]

/-- The rook directions of the source, in source order. -/
def straightDirs : List (Int × Int) := [(1, 0), (-1, 0), (0, 1), (0, -1)]

/-- The king-step offsets, in the order of the nested dr/dc loops. -/
def kingDeltas : List (Int × Int) :=
  [(-1, -1), (-1, 0), (-1, 1), (0, -1), (0, 1), (1, -1), (1, 0), (1, 1)]

/-- `isSquareAttacked` is needed by `kingMoves`; its pieces follow. -/
def pawnAttackHit (S : GameState) (r c : Int) (attacker : Char) : Bool :=
  let pd : Int := if attacker = 'w' then -1 else 1
  let pr := r - pd
  ([c - 1, c + 1] : List Int).any (fun pc =>
    onBoard pr pc &&
      match getCell S.board pr pc with
      | some t => t.toLower = 'p' && pieceColor t = attacker
      | none => false)

/-- The knight leg of `isSquareAttacked`. -/
def knightAttackHit (S : GameState) (r c : Int) (attacker : Char) : Bool :=
  knightDeltas.any (fun d =>
    let nr := r + d.1
    let nc := c + d.2
    onBoard nr nc &&
      match getCell S.board nr nc with
      | some t => t.toLower = 'n' && pieceColor t = attacker
      | none => false)

/-- One sliding scan of `isSquareAttacked`: walk the ray until the first
occupied square and test it against the attacking kinds. -/
def rayHitGo (S : GameState) (attacker : Char) (k1 k2 : Char) (dr dc : Int) :
    Nat → Int → Int → Bool
  | 0, _, _ => false
  | fuel + 1, nr, nc =>
      if onBoard nr nc then
        match getCell S.board nr nc with
        | none => rayHitGo S attacker k1 k2 dr dc fuel (nr + dr) (nc + dc)
        | some t => pieceColor t = attacker && (t.toLower = k1 || t.toLower = k2)
      else false

/-- Scan one direction from `(r, c)` for an attacker of kind `k1` or `k2`. -/
def rayHit (S : GameState) (attacker : Char) (k1 k2 : Char) (r c dr dc : Int) : Bool :=
  rayHitGo S attacker k1 k2 dr dc 8 (r + dr) (c + dc)

/-- The king-adjacency leg of `isSquareAttacked`. -/
def kingAttackHit (S : GameState) (r c : Int) (attacker : Char) : Bool :=
  kingDeltas.any (fun d =>
    let nr := r + d.1
    let nc := c + d.2
    onBoard nr nc &&
      match getCell S.board nr nc with
      | some t => t.toLower = 'k' && pieceColor t = attacker
      | none => false)

/-- `isSquareAttacked` of the source: pawn reach, knight offsets,
diagonal bishop/queen rays, straight rook/queen rays, king adjacency. -/
def isSquareAttacked (S : GameState) (r c : Int) (attacker : Char) : Bool :=
  pawnAttackHit S r c attacker ||
  knightAttackHit S r c attacker ||
  diagDirs.any (fun d => rayHit S attacker 'b' 'q' r c d.1 d.2) ||
  straightDirs.any (fun d => rayHit S attacker 'r' 'q' r c d.1 d.2) ||
  kingAttackHit S r c attacker

/-- `kingMoves` of the source: eight steps plus the castling pushes. -/
def kingMoves (S : GameState) (r c : Int) : List Move :=
  match getCell S.board r c with
  | none => []
  | some p =>
      let col := pieceColor p
      let enemy := oppositeColor col
      let steps :=
        kingDeltas.flatMap (fun d =>
          let nr := r + d.1
          let nc := c + d.2
          if onBoard nr nc then
            match getCell S.board nr nc with
            | none => [mkMove r c nr nc p none none noFlags]
            | some t =>
                if pieceColor t = enemy then [mkMove r c nr nc p (some t) none noFlags]
                else []
          else [])
      let whiteCastles :=
        if col = 'w' && r = 7 && c = 4 then
          (if S.castling.wK &&
              (getCell S.board 7 5).isNone && (getCell S.board 7 6).isNone &&
              !isSquareAttacked S 7 4 enemy && !isSquareAttacked S 7 5 enemy &&
              !isSquareAttacked S 7 6 enemy then
            [mkMove 7 4 7 6 p none none (castleFlag .K)]
          else []) ++
          (if S.castling.wQ &&
              (getCell S.board 7 3).isNone && (getCell S.board 7 2).isNone &&
              (getCell S.board 7 1).isNone &&
              !isSquareAttacked S 7 4 enemy && !isSquareAttacked S 7 3 enemy &&
              !isSquareAttacked S 7 2 enemy then
            [mkMove 7 4 7 2 p none none (castleFlag .Q)]
          else [])
        else []
      let blackCastles :=
        if col = 'b' && r = 0 && c = 4 then
          (if S.castling.bK &&
              (getCell S.board 0 5).isNone && (getCell S.board 0 6).isNone &&
              !isSquareAttacked S 0 4 enemy && !isSquareAttacked S 0 5 enemy &&
              !isSquareAttacked S 0 6 enemy then
            [mkMove 0 4 0 6 p none none (castleFlag .K)]
          else []) ++
          (if S.castling.bQ &&
              (getCell S.board 0 3).isNone && (getCell S.board 0 2).isNone &&
              (getCell S.board 0 1).isNone &&
              !isSquareAttacked S 0 4 enemy && !isSquareAttacked S 0 3 enemy &&
              !isSquareAttacked S 0 2 enemy then
            [mkMove 0 4 0 2 p none none (castleFlag .Q)]
          else [])
        else []
      steps ++ whiteCastles ++ blackCastles

/-- The per-square dispatch of `generatePseudoLegalMoves`. -/
def pieceMovesAt (S : GameState) (r c : Int) : List Move :=
  match getCell S.board r c with
  | none => []
  | some p =>
      if pieceColor p = S.activeColor then
        let t := p.toLower
        if t = 'p' then pawnMoves S r c
        else if t = 'n' then knightMoves S r c
        else if t = 'b' then slidingMoves S r c diagDirs
        else if t = 'r' then slidingMoves S r c straightDirs
        else if t = 'q' then slidingMoves S r c (diagDirs ++ straightDirs)
        else if t = 'k' then kingMoves S r c
        else []
      else []

/-- `generatePseudoLegalMoves` of the source: scan the board row-major. -/
def generatePseudoLegalMoves (S : GameState) : List Move :=
  (List.range 8).flatMap (fun r =>
    (List.range 8).flatMap (fun c => pieceMovesAt S (r : Int) (c : Int)))

/-- `findKing` of the source: first matching square in row-major order. -/
def findKing (S : GameState) (color : Char) : Option (Int × Int) :=
  let target := if color = 'w' then 'K' else 'k'
  (List.range 8).findSome? (fun r =>
    (List.range 8).findSome? (fun c =>
      if getCell S.board (Int.ofNat r) (Int.ofNat c) = some target then
        some (Int.ofNat r, Int.ofNat c)
      else none))

/-! ## Move execution (`doMove`) -/

/-- Clear castling rights on king moves, as in the source. -/
def castlingAfterKing (piece : Cell) (cast : Castling) : Castling :=
  match piece with
  | some p =>
      if p.toLower = 'k' then
        if p.toUpper = p then { cast with wK := false, wQ := false }
        else { cast with bK := false, bQ := false }
      else cast
  | none => cast

/-- Clear castling rights when a rook leaves its home square. -/
def castlingAfterRookFrom (piece : Cell) (fr fc : Int) (cast : Castling) : Castling :=
  match piece with
  | some p =>
      if p.toLower = 'r' then
        let c1 := if fr = 7 && fc = 0 then { cast with wQ := false } else cast
        let c2 := if fr = 7 && fc = 7 then { c1 with wK := false } else c1
        let c3 := if fr = 0 && fc = 0 then { c2 with bQ := false } else c2
        if fr = 0 && fc = 7 then { c3 with bK := false } else c3
      else cast
  | none => cast

/-- Clear castling rights when a rook is captured on its home square. -/
def castlingAfterRookCapture (cap : Cell) (tr tc : Int) (cast : Castling) : Castling :=
  match cap with
  | some p =>
      if p.toLower = 'r' then
        let c1 := if tr = 7 && tc = 0 then { cast with wQ := false } else cast
        let c2 := if tr = 7 && tc = 7 then { c1 with wK := false } else c1
        let c3 := if tr = 0 && tc = 0 then { c2 with bQ := false } else c2
        if tr = 0 && tc = 7 then { c3 with bK := false } else c3
      else cast
  | none => cast

/-- Whether a cell holds a piece of the given lowercase kind. -/
def isKind (cell : Cell) (k : Char) : Bool :=
  match cell with
  | some p => p.toLower = k
  | none => false

/-- `doMove` of the source, as a pure state transformer.  The source
mutates a (cloned) state in place; the reads and writes happen in the
source order, so later reads see earlier writes. -/
def doMove (S : GameState) (m : Move) : GameState :=
  let fr := m.fromSq.1
  let fc := m.fromSq.2
  let tr := m.toSq.1
  let tc := m.toSq.2
  let piece := getCell S.board fr fc
  let b0 := setCell S.board fr fc none
  let b1 := if m.flags.enpassant then setCell b0 fr tc none else b0
  let b2 :=
    match m.flags.castle with
    | some .K =>
        let bA := setCell b1 tr tc piece
        let bB := setCell bA tr 5 (getCell bA tr 7)
        setCell bB tr 7 none
    | some .Q =>
        let bA := setCell b1 tr tc piece
        let bB := setCell bA tr 3 (getCell bA tr 0)
        setCell bB tr 0 none
    | none =>
        match m.promotion with
        | some promo =>
            let isWhite :=
              match piece with
              | some p => p.toUpper == p
              | none => true
            setCell b1 tr tc (some (if isWhite then promo.toUpper else promo.toLower))
        | none => setCell b1 tr tc piece
  let cast1 := castlingAfterKing piece S.castling
  let cast2 := castlingAfterRookFrom piece fr fc cast1
  let cast3 := castlingAfterRookCapture m.capture tr tc cast2
  let ep :=
    if isKind piece 'p' && (tr - fr = 2 || tr - fr = -2) then
      some ((fr + tr) / 2, fc)
    else none
  let halfmove :=
    if isKind piece 'p' || m.capture.isSome then some 0
    else S.halfmove.map (· + 1)
  let fullmove :=
    if S.activeColor = 'b' then S.fullmove.map (· + 1) else S.fullmove
  { board := b2, activeColor := oppositeColor S.activeColor, castling := cast3,
    enPassant := ep, halfmove := halfmove, fullmove := fullmove }

/-- `generateLegalMoves` of the source: keep a pseudo-legal move when the
moved position still has the mover king and that king is not attacked
by the side now to move. -/
def generateLegalMoves (S : GameState) : List Move :=
  (generatePseudoLegalMoves S).filter (fun m =>
    let S2 := doMove S m
    let mover := oppositeColor S2.activeColor
    match findKing S2 mover with
    | none => false
    | some kp => !isSquareAttacked S2 kp.1 kp.2 S2.activeColor)

/-! ## Evaluation and search -/

/-- A JS numeric score: finite (the engine only produces values exact in
doubles: integers and halves well below 2^52, so a rational is faithful)
or one of the two infinities. -/
inductive Score
  | negInf
  | num (q : ℚ)
  | posInf
deriving DecidableEq, Repr

/-- Strict `<` on scores, as JS compares numbers and infinities. -/
def Score.ltb : Score → Score → Bool
  | negInf, negInf => false
  | negInf, _ => true
  | num _, negInf => false
  | num a, num b => a < b
  | num _, posInf => true
  | posInf, _ => false

/-- Non-strict `<=`, the negation of `>` for these NaN-free scores. -/
def Score.leb (a b : Score) : Bool := !Score.ltb b a

/-- `Math.max` on scores. -/
def Score.maxS (a b : Score) : Score := if Score.ltb a b then b else a

/-- `Math.min` on scores. -/
def Score.minS (a b : Score) : Score := if Score.ltb b a then b else a

/-- The evaluation-weight genome; `getDefaultGenome` gives 1 and 0.5. -/
structure Genome where
  materialWeight : ℚ
  positionalWeight : ℚ
deriving DecidableEq, Repr

/-- `getDefaultGenome` of the source. -/
def defaultGenome : Genome := ⟨1, 1 / 2⟩

/-- `PIECE_VALUES` of the source (centipawns, black negative). -/
def pieceValue (p : Char) : Int :=
  if p = 'p' then -100 else if p = 'n' then -320 else if p = 'b' then -330
  else if p = 'r' then -500 else if p = 'q' then -900 else if p = 'k' then 0
  else if p = 'P' then 100 else if p = 'N' then 320 else if p = 'B' then 330
  else if p = 'R' then 500 else if p = 'Q' then 900 else 0

/-- The material loop of `evaluate`. -/
def material (S : GameState) : Int :=
  ((List.range 8).map (fun r =>
    ((List.range 8).map (fun c =>
      match getCell S.board (r : Int) (c : Int) with
      | some p => pieceValue p
      | none => 0)).sum)).sum

/-- The pawn-advancement loop of `evaluate`. -/
def positional (S : GameState) : Int :=
  ((List.range 8).map (fun r =>
    ((List.range 8).map (fun c =>
      match getCell S.board (r : Int) (c : Int) with
      | some p =>
          if p.toLower = 'p' then
            let baseRank : Int := if p = 'P' then 6 else 1
            let advancement := ((r : Int) - baseRank).natAbs
            (if p = 'P' then (advancement : Int) else -(advancement : Int)) * 5
          else 0
      | none => 0)).sum)).sum

/-- `evaluate` of the source: terminal checks (missing king, checkmate,
stalemate) and otherwise the weighted material plus positional sum. -/
def evaluate (g : Genome) (S : GameState) : Score :=
  let legalMoves := generateLegalMoves S
  match findKing S S.activeColor with
  | none => if S.activeColor = 'w' then .negInf else .posInf
  | some kp =>
      let inCheck := isSquareAttacked S kp.1 kp.2 (oppositeColor S.activeColor)
      if legalMoves.isEmpty && inCheck then
        .num (if S.activeColor = 'w' then -100000 else 100000)
      else if legalMoves.isEmpty && !inCheck then .num 0
      else
        .num ((material S : ℚ) * g.materialWeight +
              (positional S : ℚ) * g.positionalWeight)

/-- The score / principal-variation pair returned by `minimax`. -/
structure SearchResult where
  score : Score
  sequence : List Move
deriving Repr

/-- The maximizing for-loop of `minimax`: `next` is the depth-lowered
recursive search, `bestScore` starts at negative infinity and `alpha`
rises; a sibling cutoff fires when `alpha >= beta`. -/
def abMaxGo (next : GameState → Score → Score → List Move → SearchResult)
    (state : GameState) (seq : List Move) (beta : Score) :
    List Move → Score → List Move → Score → SearchResult
  | [], bestScore, bestSeq, _ => ⟨bestScore, bestSeq⟩
  | mv :: rest, bestScore, bestSeq, alpha =>
      let res := next (doMove state mv) alpha beta (seq ++ [mv])
      let improved := Score.ltb bestScore res.score
      let bestScore' := if improved then res.score else bestScore
      let bestSeq' := if improved then res.sequence else bestSeq
      let alpha' := Score.maxS alpha res.score
      if Score.leb beta alpha' then ⟨bestScore', bestSeq'⟩
      else abMaxGo next state seq beta rest bestScore' bestSeq' alpha'

/-- The minimizing for-loop of `minimax`. -/
def abMinGo (next : GameState → Score → Score → List Move → SearchResult)
    (state : GameState) (seq : List Move) (alpha : Score) :
    List Move → Score → List Move → Score → SearchResult
  | [], bestScore, bestSeq, _ => ⟨bestScore, bestSeq⟩
  | mv :: rest, bestScore, bestSeq, beta =>
      let res := next (doMove state mv) alpha beta (seq ++ [mv])
      let improved := Score.ltb res.score bestScore
      let bestScore' := if improved then res.score else bestScore
      let bestSeq' := if improved then res.sequence else bestSeq
      let beta' := Score.minS beta res.score
      if Score.leb beta' alpha then ⟨bestScore', bestSeq'⟩
      else abMinGo next state seq alpha rest bestScore' bestSeq' beta'

/-- `minimax` of the source: static evaluation at depth 0; with no legal
moves, a missing-king extreme, a signed mate score, or a stalemate 0;
otherwise the alpha-beta loop over the legal moves. -/
def minimax (g : Genome) : Nat → GameState → Score → Score → Bool → Bool →
    List Move → SearchResult
  | 0, state, _, _, _, _, seq => ⟨evaluate g state, seq⟩
  | d + 1, state, alpha, beta, isMaximizing, originalSide, seq =>
      let moves := generateLegalMoves state
      let king := findKing state state.activeColor
      if moves.isEmpty then
        match king with
        | none => ⟨if originalSide then .negInf else .posInf, seq⟩
        | some kp =>
            if isSquareAttacked state kp.1 kp.2 (oppositeColor state.activeColor) then
              ⟨.num (if state.activeColor = 'w' then -100000 else 100000), seq⟩
            else ⟨.num 0, seq⟩
      else if isMaximizing then
        abMaxGo (fun st a b sq => minimax g d st a b false originalSide sq)
          state seq beta moves .negInf [] alpha
      else
        abMinGo (fun st a b sq => minimax g d st a b true originalSide sq)
          state seq alpha moves .posInf [] beta

/-! ## Session state (the per-instance fields used by the draw queries) -/

/-- The session slice the draw detectors read: the live state and the
append-only `positionHistory` of canonical keys. -/
structure Engine where
  state : GameState
  positionHistory : List (List Char)
deriving Repr

/-- The constructor `new ChessEngine(fen)`, on a parseable FEN. -/
def Engine.init (fen : List Char) : Except String Engine :=
  (parseFEN fen).map (fun st => ⟨st, [positionKey st]⟩)

/-- `makeMove` of the source: commit on the live state and append the key. -/
def Engine.makeMove (e : Engine) (m : Move) : Engine :=
  let st := doMove e.state m
  ⟨st, e.positionHistory ++ [positionKey st]⟩

/-- `isThreefoldRepetition` of the source: count the occurrences of the
current key in the history and compare with 3. -/
def isThreefoldRepetition (e : Engine) : Bool :=
  let key := positionKey e.state
  decide (3 ≤ (e.positionHistory.filter (fun k => k = key)).length)

/-! ## Insufficient material -/

/-- The number of pieces of lowercase kind `k` on the board. -/
def countKind (S : GameState) (k : Char) : Nat :=
  ((List.range 8).map (fun r =>
    ((List.range 8).filter (fun c =>
      isKind (getCell S.board (r : Int) (c : Int)) k)).length)).sum

/-- The `bishopSquares` list of square-color parities, in scan order. -/
def bishopParities (S : GameState) : List Nat :=
  (List.range 8).flatMap (fun r =>
    (List.range 8).filterMap (fun c =>
      if isKind (getCell S.board (Int.ofNat r) (Int.ofNat c)) 'b' then
        some ((r + c) % 2)
      else none))

/-- `isInsufficientMaterial` of the source. -/
def isInsufficientMaterial (S : GameState) : Bool :=
  let pawns := countKind S 'p'
  let rooks := countKind S 'r'
  let queens := countKind S 'q'
  let bishops := countKind S 'b'
  let knights := countKind S 'n'
  let bs := bishopParities S
  if 0 < pawns || 0 < rooks || 0 < queens then false
  else
    let minor := bishops + knights
    if minor = 0 then true
    else if minor = 1 then true
    else if minor = 2 then
      if knights = 2 then true
      else if bishops = 2 then bs.all (fun p => p = bs.headD 0)
      else false
    else false

/-- `START_FEN` of the source. -/
def START_FEN : List Char :=
  ['r','n','b','q','k','b','n','r','/','p','p','p','p','p','p','p','p','/','8',
   '/','8','/','8','/','8','/','P','P','P','P','P','P','P','P','/','R','N','B',
   'Q','K','B','N','R',' ','w',' ','K','Q','k','q',' ','-',' ','0',' ','1']

/-! ## Basic board lemmas -/

/-- Both dimensions of the board are 8, as every engine-built board is. -/
def dims8 (B : Board) : Prop := B.length = 8 ∧ ∀ row ∈ B, row.length = 8

theorem length_setCell (B : Board) (r c : Int) (v : Cell) :
    (setCell B r c v).length = B.length := by
  unfold setCell
  split <;> simp

theorem dims8_setCell {B : Board} (h : dims8 B) (r c : Int) (v : Cell) :
    dims8 (setCell B r c v) := by
  obtain ⟨h1, h2⟩ := h
  unfold setCell
  split
  · refine ⟨by simpa using h1, ?_⟩
    intro row hrow
    rcases List.mem_or_eq_of_mem_set hrow with h | h
    · exact h2 row h
    · subst h
      rw [List.length_set]
      have hrl : r.toNat < B.length := by omega
      rw [List.getD_eq_getElem B [] hrl]
      exact h2 _ (List.getElem_mem hrl)
  · exact ⟨h1, h2⟩

theorem getCell_setCell_cases (B : Board) (r c : Int) (v : Cell) (r' c' : Int) :
    getCell (setCell B r c v) r' c' = getCell B r' c' ∨
      getCell (setCell B r c v) r' c' = v := by
  by_cases hw : 0 ≤ r ∧ r < 8 ∧ 0 ≤ c ∧ c < 8
  · by_cases hv : 0 ≤ r' ∧ r' < 8 ∧ 0 ≤ c' ∧ c' < 8
    · unfold getCell setCell
      rw [if_pos hv, if_pos hv, if_pos hw]
      simp only [List.getD_eq_getElem?_getD, List.getElem?_set]
      rcases eq_or_ne r'.toNat r.toNat with hreq | hrne
      · rw [hreq, if_pos rfl]
        by_cases hrl : r.toNat < B.length
        · rw [if_pos hrl]
          simp only [Option.getD_some, List.getElem?_set]
          rcases eq_or_ne c'.toNat c.toNat with hceq | hcne
          · rw [hceq, if_pos rfl]
            by_cases hcl : c.toNat < (B[r.toNat]?.getD []).length
            · rw [if_pos hcl]
              right
              simp
            · rw [if_neg hcl]
              left
              have hnone : (B[r.toNat]?.getD [])[c.toNat]? = none :=
                List.getElem?_eq_none (by omega)
              rw [hnone]
          · rw [if_neg (Ne.symm hcne)]
            left
            rfl
        · rw [if_neg hrl]
          left
          have hnone : B[r.toNat]? = none := List.getElem?_eq_none (by omega)
          rw [hnone]
      · rw [if_neg (Ne.symm hrne)]
        left
        rfl
    · left
      unfold getCell
      rw [if_neg hv, if_neg hv]
  · left
    unfold setCell
    rw [if_neg hw]

theorem getCell_setCell_ne (B : Board) {r c r' c' : Int} (v : Cell)
    (h : r ≠ r' ∨ c ≠ c') :
    getCell (setCell B r c v) r' c' = getCell B r' c' := by
  by_cases hw : 0 ≤ r ∧ r < 8 ∧ 0 ≤ c ∧ c < 8
  · by_cases hv : 0 ≤ r' ∧ r' < 8 ∧ 0 ≤ c' ∧ c' < 8
    · unfold getCell setCell
      rw [if_pos hv, if_pos hv, if_pos hw]
      simp only [List.getD_eq_getElem?_getD, List.getElem?_set]
      rcases h with h | h
      · rw [if_neg (by omega)]
      · have hcne : c.toNat ≠ c'.toNat := by omega
        rcases eq_or_ne r'.toNat r.toNat with hreq | hrne
        · rw [hreq, if_pos rfl]
          by_cases hrl : r.toNat < B.length
          · rw [if_pos hrl]
            simp only [Option.getD_some, List.getElem?_set, if_neg hcne]
          · rw [if_neg hrl]
            have hnone : B[r.toNat]? = none := List.getElem?_eq_none (by omega)
            rw [hnone]
        · rw [if_neg (Ne.symm hrne)]
    · unfold getCell
      rw [if_neg hv, if_neg hv]
  · unfold setCell
    rw [if_neg hw]

theorem getCell_setCell_self {B : Board} (hd : dims8 B) {r c : Int}
    (hr0 : 0 ≤ r) (hr8 : r < 8) (hc0 : 0 ≤ c) (hc8 : c < 8) (v : Cell) :
    getCell (setCell B r c v) r c = v := by
  obtain ⟨h1, h2⟩ := hd
  have hrl : r.toNat < B.length := by omega
  have hcl : c.toNat < (B[r.toNat]?.getD []).length := by
    rw [← List.getD_eq_getElem?_getD, List.getD_eq_getElem B [] hrl]
    rw [h2 _ (List.getElem_mem hrl)]
    omega
  unfold getCell setCell
  rw [if_pos ⟨hr0, hr8, hc0, hc8⟩, if_pos ⟨hr0, hr8, hc0, hc8⟩]
  have hcl2 : c.toNat < B[r.toNat].length := by
    rw [List.getElem?_eq_getElem hrl] at hcl
    simpa using hcl
  simp [List.getD_eq_getElem?_getD, List.getElem?_set, hrl, hcl2]

/-! ## Shape of generated moves -/

@[simp] theorem mkMove_fromSq (fr fc tr tc : Int) (p : Char) (cap : Cell)
    (promo : Option Char) (fl : MoveFlags) :
    (mkMove fr fc tr tc p cap promo fl).fromSq = (fr, fc) := rfl

@[simp] theorem mkMove_toSq (fr fc tr tc : Int) (p : Char) (cap : Cell)
    (promo : Option Char) (fl : MoveFlags) :
    (mkMove fr fc tr tc p cap promo fl).toSq = (tr, tc) := rfl

@[simp] theorem mkMove_piece (fr fc tr tc : Int) (p : Char) (cap : Cell)
    (promo : Option Char) (fl : MoveFlags) :
    (mkMove fr fc tr tc p cap promo fl).piece = p := rfl

@[simp] theorem mkMove_capture (fr fc tr tc : Int) (p : Char) (cap : Cell)
    (promo : Option Char) (fl : MoveFlags) :
    (mkMove fr fc tr tc p cap promo fl).capture = cap := rfl

@[simp] theorem mkMove_promotion (fr fc tr tc : Int) (p : Char) (cap : Cell)
    (promo : Option Char) (fl : MoveFlags) :
    (mkMove fr fc tr tc p cap promo fl).promotion = promo := rfl

@[simp] theorem mkMove_flags (fr fc tr tc : Int) (p : Char) (cap : Cell)
    (promo : Option Char) (fl : MoveFlags) :
    (mkMove fr fc tr tc p cap promo fl).flags = fl := rfl

theorem mem_ite_list {α} {c : Prop} [Decidable c] {l1 l2 : List α} {a : α}
    (h : a ∈ (if c then l1 else l2)) : a ∈ l1 ∨ a ∈ l2 := by
  split at h
  · exact Or.inl h
  · exact Or.inr h

/-- The facts about a generated move that the state invariants rely on:
its source square is the scanned square, its promotion kind is one of the
four the generator pushes, and a two-row pawn step is one of the two
double pushes (so its midpoint row is 5 or 2 and its file unchanged). -/
def MoveShape (S : GameState) (r c : Int) (m : Move) : Prop :=
  m.fromSq = (r, c) ∧
  (m.promotion = none ∨ ∃ pr, pr ∈ promoKinds ∧ m.promotion = some pr) ∧
  (isKind (getCell S.board r c) 'p' → (m.toSq.1 - r = 2 ∨ m.toSq.1 - r = -2) →
    (r + m.toSq.1 = 10 ∨ r + m.toSq.1 = 4) ∧ m.toSq.2 = c)

theorem mem_ite_nil {α} {c : Prop} [Decidable c] {l1 : List α} {a : α}
    (h : a ∈ (if c then l1 else [])) : c ∧ a ∈ l1 := by
  split at h
  · exact ⟨by assumption, h⟩
  · simp at h

theorem pawnMoves_shape (S : GameState) (r c : Int) (m : Move)
    (hm : m ∈ pawnMoves S r c) : MoveShape S r c m := by
  unfold pawnMoves at hm
  cases hcell : getCell S.board r c with
  | none =>
      rw [hcell] at hm
      simp at hm
  | some p =>
      rw [hcell] at hm
      dsimp only at hm
      unfold MoveShape
      rw [hcell]
      rcases List.mem_append.mp hm with h | h
      · -- push block
        obtain ⟨hone, h⟩ := mem_ite_nil h
        rcases List.mem_append.mp h with h | h
        · rcases mem_ite_list h with h | h
          · rcases List.mem_map.mp h with ⟨pr, hpr, rfl⟩
            refine ⟨rfl, Or.inr ⟨pr, hpr, rfl⟩, ?_⟩
            intro _ hd
            exfalso
            simp only [mkMove_toSq] at hd
            by_cases hcol : pieceColor p = 'w'
            · rw [if_pos hcol] at hd
              omega
            · rw [if_neg hcol] at hd
              omega
          · rcases List.mem_singleton.mp h with rfl
            refine ⟨rfl, Or.inl rfl, ?_⟩
            intro _ hd
            exfalso
            simp only [mkMove_toSq] at hd
            by_cases hcol : pieceColor p = 'w'
            · rw [if_pos hcol] at hd
              omega
            · rw [if_neg hcol] at hd
              omega
        · obtain ⟨hstart, h⟩ := mem_ite_nil h
          obtain ⟨htwo, h⟩ := mem_ite_nil h
          rcases List.mem_singleton.mp h with rfl
          refine ⟨rfl, Or.inl rfl, ?_⟩
          intro _ _
          refine ⟨?_, rfl⟩
          simp only [mkMove_toSq]
          by_cases hcol : pieceColor p = 'w'
          · rw [if_pos hcol] at hstart ⊢
            omega
          · rw [if_neg hcol] at hstart ⊢
            omega
      · -- capture block
        rcases List.mem_flatMap.mp h with ⟨dc, hdc, hmem⟩
        obtain ⟨hob, h⟩ := mem_ite_nil hmem
        rcases List.mem_append.mp h with h | h
        · rcases hcap : getCell S.board (r + (if pieceColor p = 'w' then (-1 : Int) else 1)) (c + dc) with _ | tgt
          all_goals rw [hcap] at h
          · simp at h
          · dsimp only at h
            obtain ⟨henemy, h⟩ := mem_ite_nil h
            rcases mem_ite_list h with h | h
            · rcases List.mem_map.mp h with ⟨pr, hpr, rfl⟩
              refine ⟨rfl, Or.inr ⟨pr, hpr, rfl⟩, ?_⟩
              intro _ hd
              exfalso
              simp only [mkMove_toSq] at hd
              by_cases hcol : pieceColor p = 'w'
              · rw [if_pos hcol] at hd
                omega
              · rw [if_neg hcol] at hd
                omega
            · rcases List.mem_singleton.mp h with rfl
              refine ⟨rfl, Or.inl rfl, ?_⟩
              intro _ hd
              exfalso
              simp only [mkMove_toSq] at hd
              by_cases hcol : pieceColor p = 'w'
              · rw [if_pos hcol] at hd
                omega
              · rw [if_neg hcol] at hd
                omega
        · obtain ⟨hep, h⟩ := mem_ite_nil h
          rcases List.mem_singleton.mp h with rfl
          refine ⟨rfl, Or.inl rfl, ?_⟩
          intro _ hd
          exfalso
          simp only [mkMove_toSq] at hd
          by_cases hcol : pieceColor p = 'w'
          · rw [if_pos hcol] at hd
            omega
          · rw [if_neg hcol] at hd
            omega

theorem knightMoves_shape (S : GameState) (r c : Int) (m : Move)
    (hm : m ∈ knightMoves S r c) : m.fromSq = (r, c) ∧ m.promotion = none := by
  unfold knightMoves at hm
  cases hcell : getCell S.board r c with
  | none =>
      rw [hcell] at hm
      simp at hm
  | some p =>
      rw [hcell] at hm
      dsimp only at hm
      rcases List.mem_flatMap.mp hm with ⟨d, hd, hmem⟩
      obtain ⟨hob, h⟩ := mem_ite_nil hmem
      cases htgt : getCell S.board (r + d.1) (c + d.2) with
      | none =>
          rw [htgt] at h
          rcases List.mem_singleton.mp h with rfl
          exact ⟨rfl, rfl⟩
      | some t =>
          rw [htgt] at h
          dsimp only at h
          obtain ⟨henemy, h⟩ := mem_ite_nil h
          rcases List.mem_singleton.mp h with rfl
          exact ⟨rfl, rfl⟩

theorem slideRayGo_shape (S : GameState) (r c : Int) (p : Char) (enemy : Char)
    (dr dc : Int) (fuel : Nat) (nr nc : Int) (m : Move)
    (hm : m ∈ slideRayGo S r c p enemy dr dc fuel nr nc) :
    m.fromSq = (r, c) ∧ m.promotion = none := by
  induction fuel generalizing nr nc with
  | zero => simp [slideRayGo] at hm
  | succ fuel ih =>
      unfold slideRayGo at hm
      obtain ⟨hob, h⟩ := mem_ite_nil hm
      cases htgt : getCell S.board nr nc with
      | none =>
          rw [htgt] at h
          rcases List.mem_cons.mp h with rfl | h
          · exact ⟨rfl, rfl⟩
          · exact ih _ _ h
      | some t =>
          rw [htgt] at h
          dsimp only at h
          obtain ⟨henemy, h⟩ := mem_ite_nil h
          rcases List.mem_singleton.mp h with rfl
          exact ⟨rfl, rfl⟩

theorem slidingMoves_shape (S : GameState) (r c : Int) (dirs : List (Int × Int))
    (m : Move) (hm : m ∈ slidingMoves S r c dirs) :
    m.fromSq = (r, c) ∧ m.promotion = none := by
  unfold slidingMoves at hm
  cases hcell : getCell S.board r c with
  | none =>
      rw [hcell] at hm
      simp at hm
  | some p =>
      rw [hcell] at hm
      dsimp only at hm
      rcases List.mem_flatMap.mp hm with ⟨d, hd, hmem⟩
      exact slideRayGo_shape S r c p _ d.1 d.2 8 _ _ m hmem

theorem kingMoves_shape (S : GameState) (r c : Int) (m : Move)
    (hm : m ∈ kingMoves S r c) : m.fromSq = (r, c) ∧ m.promotion = none := by
  unfold kingMoves at hm
  cases hcell : getCell S.board r c with
  | none =>
      rw [hcell] at hm
      simp at hm
  | some p =>
      rw [hcell] at hm
      dsimp only at hm
      rcases List.mem_append.mp hm with h | h
      · rcases List.mem_append.mp h with h | h
        · rcases List.mem_flatMap.mp h with ⟨d, hd, hmem⟩
          obtain ⟨hob, h⟩ := mem_ite_nil hmem
          cases htgt : getCell S.board (r + d.1) (c + d.2) with
          | none =>
              rw [htgt] at h
              rcases List.mem_singleton.mp h with rfl
              exact ⟨rfl, rfl⟩
          | some t =>
              rw [htgt] at h
              dsimp only at h
              obtain ⟨henemy, h⟩ := mem_ite_nil h
              rcases List.mem_singleton.mp h with rfl
              exact ⟨rfl, rfl⟩
        · obtain ⟨hcond, hwmem⟩ := mem_ite_nil h
          obtain ⟨⟨hcw, hr7⟩, hc4⟩ : (pieceColor p = 'w' ∧ r = 7) ∧ c = 4 := by
            simpa using hcond
          subst hr7
          subst hc4
          rcases List.mem_append.mp hwmem with hcm | hcm
          · obtain ⟨_, hcm2⟩ := mem_ite_nil hcm
            rcases List.mem_singleton.mp hcm2 with rfl
            exact ⟨rfl, rfl⟩
          · obtain ⟨_, hcm2⟩ := mem_ite_nil hcm
            rcases List.mem_singleton.mp hcm2 with rfl
            exact ⟨rfl, rfl⟩
      · obtain ⟨hcond, hbmem⟩ := mem_ite_nil h
        obtain ⟨⟨hcb, hr0⟩, hc4⟩ : (pieceColor p = 'b' ∧ r = 0) ∧ c = 4 := by
          simpa using hcond
        subst hr0
        subst hc4
        rcases List.mem_append.mp hbmem with hcm | hcm
        · obtain ⟨_, hcm2⟩ := mem_ite_nil hcm
          rcases List.mem_singleton.mp hcm2 with rfl
          exact ⟨rfl, rfl⟩
        · obtain ⟨_, hcm2⟩ := mem_ite_nil hcm
          rcases List.mem_singleton.mp hcm2 with rfl
          exact ⟨rfl, rfl⟩

theorem pieceMovesAt_shape (S : GameState) (r c : Int) (m : Move)
    (hm : m ∈ pieceMovesAt S r c) : MoveShape S r c m := by
  unfold pieceMovesAt at hm
  cases hcell : getCell S.board r c with
  | none =>
      rw [hcell] at hm
      simp at hm
  | some p =>
      rw [hcell] at hm
      dsimp only at hm
      obtain ⟨hcolor, hm⟩ := mem_ite_nil hm
      have hnotp : ∀ h2 : m.fromSq = (r, c) ∧ m.promotion = none,
          p.toLower ≠ 'p' → MoveShape S r c m := by
        intro h2 hne
        refine ⟨h2.1, Or.inl h2.2, ?_⟩
        intro hk
        exfalso
        rw [hcell] at hk
        unfold isKind at hk
        exact hne (by simpa using hk)
      by_cases hp : p.toLower = 'p'
      · rw [if_pos hp] at hm
        exact pawnMoves_shape S r c m hm
      · rw [if_neg hp] at hm
        by_cases hn : p.toLower = 'n'
        · rw [if_pos hn] at hm
          exact hnotp (knightMoves_shape S r c m hm) hp
        · rw [if_neg hn] at hm
          by_cases hb : p.toLower = 'b'
          · rw [if_pos hb] at hm
            exact hnotp (slidingMoves_shape S r c diagDirs m hm) hp
          · rw [if_neg hb] at hm
            by_cases hr : p.toLower = 'r'
            · rw [if_pos hr] at hm
              exact hnotp (slidingMoves_shape S r c straightDirs m hm) hp
            · rw [if_neg hr] at hm
              by_cases hq : p.toLower = 'q'
              · rw [if_pos hq] at hm
                exact hnotp (slidingMoves_shape S r c _ m hm) hp
              · rw [if_neg hq] at hm
                by_cases hk : p.toLower = 'k'
                · rw [if_pos hk] at hm
                  exact hnotp (kingMoves_shape S r c m hm) hp
                · rw [if_neg hk] at hm
                  simp at hm

theorem pseudo_shape (S : GameState) (m : Move)
    (hm : m ∈ generatePseudoLegalMoves S) :
    ∃ r c : Nat, r < 8 ∧ c < 8 ∧ m ∈ pieceMovesAt S (r : Int) (c : Int) ∧
      MoveShape S (r : Int) (c : Int) m := by
  unfold generatePseudoLegalMoves at hm
  rcases List.mem_flatMap.mp hm with ⟨r, hr, hm⟩
  rcases List.mem_flatMap.mp hm with ⟨c, hc, hm⟩
  exact ⟨r, c, List.mem_range.mp hr, List.mem_range.mp hc, hm,
    pieceMovesAt_shape S _ _ m hm⟩

/-! ## Cell predicates preserved by `doMove` -/

theorem getCell_pred_setCell {P : Cell → Prop} {B : Board}
    (h : ∀ r c, P (getCell B r c)) {v : Cell} (hv : P v) (r0 c0 : Int) :
    ∀ r c, P (getCell (setCell B r0 c0 v) r c) := by
  intro r c
  rcases getCell_setCell_cases B r0 c0 v r c with he | he <;> rw [he]
  · exact h r c
  · exact hv

/-- Every cell of the board after `doMove` is empty, a cell already on the
board, or the placed promotion piece: any cell predicate holding of those
values is preserved. -/
theorem doMove_board_pred {P : Cell → Prop} (S : GameState) (m : Move)
    (hB : ∀ r c, P (getCell S.board r c)) (hnone : P none)
    (hpromo : ∀ pr, m.promotion = some pr →
      P (some pr.toUpper) ∧ P (some pr.toLower)) :
    ∀ r c, P (getCell (doMove S m).board r c) := by
  intro r c
  rcases m with ⟨⟨fr, fc⟩, ⟨tr, tc⟩, pc, cap, promo, ⟨dbl, ep, cast⟩⟩
  have hpiece : P (getCell S.board fr fc) := hB fr fc
  have h0 : ∀ r' c', P (getCell (setCell S.board fr fc none) r' c') :=
    getCell_pred_setCell hB hnone fr fc
  unfold doMove
  dsimp only
  cases ep with
  | false =>
      cases cast with
      | none =>
          cases promo with
          | none => exact getCell_pred_setCell h0 hpiece tr tc r c
          | some pr =>
              dsimp only
              have hv : P (some (if (match getCell S.board fr fc with
                  | some p => p.toUpper == p
                  | none => true) = true then pr.toUpper else pr.toLower)) := by
                split
                · exact (hpromo pr rfl).1
                · exact (hpromo pr rfl).2
              exact getCell_pred_setCell h0 hv tr tc r c
      | some side =>
          cases side with
          | K =>
              have hA := getCell_pred_setCell h0 hpiece tr tc
              have hB2 := getCell_pred_setCell hA (hA tr 7) tr 5
              exact getCell_pred_setCell hB2 hnone tr 7 r c
          | Q =>
              have hA := getCell_pred_setCell h0 hpiece tr tc
              have hB2 := getCell_pred_setCell hA (hA tr 0) tr 3
              exact getCell_pred_setCell hB2 hnone tr 0 r c
  | true =>
      have h1 : ∀ r' c', P (getCell (setCell (setCell S.board fr fc none) fr tc none) r' c') :=
        getCell_pred_setCell h0 hnone fr tc
      cases cast with
      | none =>
          cases promo with
          | none => exact getCell_pred_setCell h1 hpiece tr tc r c
          | some pr =>
              dsimp only
              have hv : P (some (if (match getCell S.board fr fc with
                  | some p => p.toUpper == p
                  | none => true) = true then pr.toUpper else pr.toLower)) := by
                split
                · exact (hpromo pr rfl).1
                · exact (hpromo pr rfl).2
              exact getCell_pred_setCell h1 hv tr tc r c
      | some side =>
          cases side with
          | K =>
              have hA := getCell_pred_setCell h1 hpiece tr tc
              have hB2 := getCell_pred_setCell hA (hA tr 7) tr 5
              exact getCell_pred_setCell hB2 hnone tr 7 r c
          | Q =>
              have hA := getCell_pred_setCell h1 hpiece tr tc
              have hB2 := getCell_pred_setCell hA (hA tr 0) tr 3
              exact getCell_pred_setCell hB2 hnone tr 0 r c

/-! ## `findKing` characterisations -/

theorem findKing_eq_none_iff (S : GameState) (color : Char) :
    findKing S color = none ↔
      ∀ r c : Int, getCell S.board r c ≠ some (if color = 'w' then 'K' else 'k') := by
  unfold findKing
  constructor
  · intro h r c hc
    by_cases hr : 0 ≤ r ∧ r < 8 ∧ 0 ≤ c ∧ c < 8
    · rw [List.findSome?_eq_none] at h
      have hrow := h r.toNat (List.mem_range.mpr (by omega))
      rw [List.findSome?_eq_none] at hrow
      have hcol := hrow c.toNat (List.mem_range.mpr (by omega))
      have hir : Int.ofNat r.toNat = r := Int.toNat_of_nonneg hr.1
      have hic : Int.ofNat c.toNat = c := Int.toNat_of_nonneg hr.2.2.1
      rw [hir, hic, hc, if_pos rfl] at hcol
      exact Option.noConfusion hcol
    · unfold getCell at hc
      rw [if_neg hr] at hc
      exact Option.noConfusion hc
  · intro h
    rw [List.findSome?_eq_none]
    intro x _
    rw [List.findSome?_eq_none]
    intro y _
    rw [if_neg (h _ _)]

theorem oppositeColor_target (col : Char) :
    (if oppositeColor (oppositeColor col) = 'w' then 'K' else 'k') =
      (if col = 'w' then 'K' else 'k') := by
  unfold oppositeColor
  by_cases h : col = 'w' <;> simp [h]

/-! ## Claim C1 -/

/-- A state used by concrete witnesses: the parsed standard start position. -/
def startState : GameState :=
  (parseFEN START_FEN).toOption.getD
    ⟨[], 'w', ⟨false, false, false, false⟩, none, none, none⟩

/-- C1: every move returned by `generateLegalMoves` is a pseudo-legal move
which, when applied to a copy of the position by `doMove`, leaves the
moving side with a king that is not attacked by the side then to move
(the opponent of the mover). -/
theorem legal_moves_leave_king_safe (S : GameState) (m : Move)
    (hm : m ∈ generateLegalMoves S) :
    m ∈ generatePseudoLegalMoves S ∧
      ∃ kp : Int × Int,
        findKing (doMove S m) (oppositeColor ((doMove S m).activeColor)) = some kp ∧
        isSquareAttacked (doMove S m) kp.1 kp.2 ((doMove S m).activeColor) = false := by
  unfold generateLegalMoves at hm
  rw [List.mem_filter] at hm
  obtain ⟨h1, h2⟩ := hm
  refine ⟨h1, ?_⟩
  have h2' : (match findKing (doMove S m) (oppositeColor ((doMove S m).activeColor)) with
      | none => false
      | some kp => !isSquareAttacked (doMove S m) kp.1 kp.2 ((doMove S m).activeColor)) =
      true := h2
  cases hfk : findKing (doMove S m) (oppositeColor ((doMove S m).activeColor)) with
  | none =>
      rw [hfk] at h2'
      simp at h2'
  | some kp =>
      rw [hfk] at h2'
      simp only [Bool.not_eq_true'] at h2'
      exact ⟨kp, rfl, h2'⟩

/-- Witness for C1 at the standard start with the double push e2-e4. -/
theorem legal_moves_leave_king_safe_witness :
    (mkMove 6 4 4 4 'P' none none doubleFlag) ∈ generateLegalMoves startState ∧
      ((mkMove 6 4 4 4 'P' none none doubleFlag) ∈ generatePseudoLegalMoves startState ∧
        ∃ kp : Int × Int,
          findKing (doMove startState (mkMove 6 4 4 4 'P' none none doubleFlag))
              (oppositeColor ((doMove startState (mkMove 6 4 4 4 'P' none none doubleFlag)).activeColor)) =
            some kp ∧
          isSquareAttacked (doMove startState (mkMove 6 4 4 4 'P' none none doubleFlag))
              kp.1 kp.2
              ((doMove startState (mkMove 6 4 4 4 'P' none none doubleFlag)).activeColor) =
            false) := by
  have hm : (mkMove 6 4 4 4 'P' none none doubleFlag) ∈ generateLegalMoves startState := by
    decide
  exact ⟨hm, legal_moves_leave_king_safe startState _ hm⟩

/-! ## Claim C7 -/

/-- C7: `isThreefoldRepetition` is true exactly when the canonical key of
the current position occurs at least three times in the history; the key
ignores the two clocks and is determined by placement, side, castling,
and en-passant. -/
theorem threefold_repetition_spec :
    (∀ e : Engine, isThreefoldRepetition e = true ↔
        3 ≤ (e.positionHistory.filter (fun k => k = positionKey e.state)).length) ∧
    (∀ (S : GameState) (hm fm : Option Int),
        positionKey ⟨S.board, S.activeColor, S.castling, S.enPassant, hm, fm⟩ =
          positionKey S) := by
  constructor
  · intro e
    unfold isThreefoldRepetition
    exact decide_eq_true_iff
  · intro S hm fm
    rfl

/-! ## Claim C10 -/

/-- C10: when the side to move has no king on the board, every
pseudo-legal move is rejected by the legality filter (the king square is
missing after the move), so `generateLegalMoves` is empty; search then
returns the missing-king extreme score and evaluation short-circuits,
instead of raising an error. -/
theorem promoKind_chars {pr : Char} (h : pr ∈ promoKinds) :
    pr.toUpper ≠ 'K' ∧ pr.toUpper ≠ 'k' ∧ pr.toLower ≠ 'K' ∧ pr.toLower ≠ 'k' := by
  fin_cases h <;> decide

theorem kingless_side_has_no_legal_moves (S : GameState)
    (h : findKing S S.activeColor = none) :
    generateLegalMoves S = [] ∧
    (∀ (g : Genome) (d : Nat) (alpha beta : Score) (maxi orig : Bool)
        (seq : List Move),
      minimax g (d + 1) S alpha beta maxi orig seq =
        ⟨if orig then Score.negInf else Score.posInf, seq⟩) ∧
    (∀ g : Genome, evaluate g S =
        if S.activeColor = 'w' then Score.negInf else Score.posInf) := by
  have htarget := (findKing_eq_none_iff S S.activeColor).mp h
  have hlegal : generateLegalMoves S = [] := by
    unfold generateLegalMoves
    rw [List.filter_eq_nil_iff]
    intro m hm
    obtain ⟨r0, c0, _, _, _, hsh⟩ := pseudo_shape S m hm
    have hpromoKinds := hsh.2.1
    have hnoking : findKing (doMove S m)
        (oppositeColor ((doMove S m).activeColor)) = none := by
      rw [findKing_eq_none_iff]
      have hact : (doMove S m).activeColor = oppositeColor S.activeColor := rfl
      rw [hact, oppositeColor_target]
      refine @doMove_board_pred
        (fun cell => cell ≠ some (if S.activeColor = 'w' then 'K' else 'k'))
        S m htarget (fun hx => Option.noConfusion hx) ?_
      intro pr hpr
      have hper : pr ∈ promoKinds := by
        rcases hpromoKinds with hnone | ⟨pr2, hpr2, hpr2e⟩
        · rw [hnone] at hpr
          exact Option.noConfusion hpr
        · rw [hpr2e] at hpr
          exact (Option.some.inj hpr) ▸ hpr2
      have hch := promoKind_chars hper
      constructor <;> intro hcontra <;> have heq := Option.some.inj hcontra <;>
        revert heq
      · split
        · exact hch.1
        · exact hch.2.1
      · split
        · exact hch.2.2.1
        · exact hch.2.2.2
    simp only [Bool.not_eq_true]
    rw [hnoking]
  refine ⟨hlegal, ?_, ?_⟩
  · intro g d alpha beta maxi orig seq
    unfold minimax
    rw [hlegal, h]
    rfl
  · intro g
    unfold evaluate
    rw [h]

/-! ## Claim C8 -/

/-- The insufficient-material test as the claim words it: no pawns,
rooks, or queens, and (minors at most one, or exactly two knights, or
exactly two same-square-color bishops) -- with no requirement that the
two knights or two bishops be the only minors.  Written for comparison
with `isInsufficientMaterial`. -/
def claimedInsufficientMaterial (S : GameState) : Bool :=
  (countKind S 'p' = 0 && countKind S 'r' = 0 && countKind S 'q' = 0) &&
  (countKind S 'b' + countKind S 'n' ≤ 1 ||
   countKind S 'n' = 2 ||
   (countKind S 'b' = 2 &&
    (bishopParities S).all (fun x => x = (bishopParities S).headD 0)))

/-- A position with two white knights and a white bishop besides the two
kings: three minors, two of which are knights. -/
def insuffCounterState : GameState :=
  (parseFEN ['4', 'k', '3', '/', '8', '/', '8', '/', '8', '/', '8', '/', '8',
    '/', '8', '/', '1', 'N', 'B', '1', 'K', '1', 'N', '1', ' ', 'w', ' ', '-',
    ' ', '-', ' ', '0', ' ', '1']).toOption.getD
    ⟨[], 'w', ⟨false, false, false, false⟩, none, none, none⟩

/-- C8 counterexample: with kings, two knights and one bishop the claim
condition holds (there are exactly two knights and no pawn, rook or
queen) but `isInsufficientMaterial` returns false, because the code also
requires the total minor count to be exactly two. -/
theorem insufficient_material_claim_false :
    isInsufficientMaterial insuffCounterState = false ∧
      claimedInsufficientMaterial insuffCounterState = true := by
  decide

/-- C8 amended: `isInsufficientMaterial` is true exactly when there are
no pawns, rooks, or queens and either at most one minor piece is on the
board, or there are exactly two minor pieces and they are two knights or
two bishops on same-colored squares. -/
theorem insufficient_material_amended (S : GameState) :
    isInsufficientMaterial S = true ↔
      (countKind S 'p' = 0 ∧ countKind S 'r' = 0 ∧ countKind S 'q' = 0 ∧
       (countKind S 'b' + countKind S 'n' ≤ 1 ∨
        (countKind S 'b' + countKind S 'n' = 2 ∧
         (countKind S 'n' = 2 ∨
          (countKind S 'b' = 2 ∧
           (bishopParities S).all (fun x => x = (bishopParities S).headD 0) =
             true))))) := by
  unfold isInsufficientMaterial
  simp only [Bool.or_eq_true, decide_eq_true_eq]
  split
  · rename_i h0
    constructor
    · intro hfalse
      exact absurd hfalse (by simp)
    · rintro ⟨hp, hr, hq, _⟩
      omega
  · rename_i h0
    split
    · rename_i hm0
      constructor
      · intro _
        refine ⟨by omega, by omega, by omega, Or.inl (by omega)⟩
      · intro _
        rfl
    · rename_i hm0
      split
      · rename_i hm1
        constructor
        · intro _
          refine ⟨by omega, by omega, by omega, Or.inl (by omega)⟩
        · intro _
          rfl
      · rename_i hm1
        split
        · rename_i hm2
          split
          · rename_i hk2
            constructor
            · intro _
              exact ⟨by omega, by omega, by omega, Or.inr ⟨by omega, Or.inl hk2⟩⟩
            · intro _
              rfl
          · rename_i hk2
            split
            · rename_i hb2
              constructor
              · intro hall
                exact ⟨by omega, by omega, by omega,
                  Or.inr ⟨by omega, Or.inr ⟨hb2, hall⟩⟩⟩
              · rintro ⟨-, -, -, hc | ⟨-, hc | ⟨-, hall⟩⟩⟩
                · omega
                · exact absurd hc hk2
                · exact hall
            · rename_i hb2
              constructor
              · intro hfalse
                exact absurd hfalse (by simp)
              · rintro ⟨-, -, -, hc | ⟨hm, hc | ⟨hb, -⟩⟩⟩
                · omega
                · exact absurd hc hk2
                · exact absurd hb hb2
        · rename_i hm2
          constructor
          · intro hfalse
            exact absurd hfalse (by simp)
          · rintro ⟨-, -, -, hc | ⟨hm, -⟩⟩
            · omega
            · exact absurd hm hm2

/-! ## Claim C10 witness -/

/-- A position whose side to move (white) has no king, but does have a
rook with pseudo-legal moves that the filter must discard. -/
def noKingState : GameState :=
  (parseFEN ['4', 'k', '3', '/', '8', '/', '8', '/', '8', '/', '8', '/', '8',
    '/', '8', '/', '4', 'R', '3', ' ', 'w', ' ', '-', ' ', '-', ' ', '0',
    ' ', '1']).toOption.getD
    ⟨[], 'w', ⟨false, false, false, false⟩, none, none, none⟩

/-- Witness for C10: the king-less-side position above. -/
theorem kingless_side_has_no_legal_moves_witness :
    findKing noKingState noKingState.activeColor = none ∧
      generateLegalMoves noKingState = [] := by
  have h : findKing noKingState noKingState.activeColor = none := by decide
  exact ⟨h, (kingless_side_has_no_legal_moves noKingState h).1⟩

/-! ## Claim C4 -/

/-- C4: minimax at depth 0 returns the static evaluation; at any depth,
a position with no legal moves scores the signed mate value when the
side to move is in check (negative when white is the mated mover) and 0
when it is stalemate.  At depth 0 the same values arrive through the
terminal branches of `evaluate` itself. -/
theorem minimax_terminal_spec :
    (∀ (g : Genome) (S : GameState) (alpha beta : Score) (maxi orig : Bool)
        (seq : List Move),
      minimax g 0 S alpha beta maxi orig seq = ⟨evaluate g S, seq⟩) ∧
    (∀ (g : Genome) (S : GameState) (d : Nat) (alpha beta : Score)
        (maxi orig : Bool) (seq : List Move) (kp : Int × Int),
      generateLegalMoves S = [] →
      findKing S S.activeColor = some kp →
      (minimax g d S alpha beta maxi orig seq).score =
        if isSquareAttacked S kp.1 kp.2 (oppositeColor S.activeColor) = true
        then Score.num (if S.activeColor = 'w' then -100000 else 100000)
        else Score.num 0) := by
  have heval : ∀ (g : Genome) (S : GameState) (kp : Int × Int),
      generateLegalMoves S = [] →
      findKing S S.activeColor = some kp →
      evaluate g S =
        if isSquareAttacked S kp.1 kp.2 (oppositeColor S.activeColor) = true
        then Score.num (if S.activeColor = 'w' then -100000 else 100000)
        else Score.num 0 := by
    intro g S kp hlegal hfk
    unfold evaluate
    rw [hfk, hlegal]
    cases hatt : isSquareAttacked S kp.1 kp.2 (oppositeColor S.activeColor) with
    | true => simp [hatt]
    | false => simp [hatt]
  constructor
  · intro g S alpha beta maxi orig seq
    rfl
  · intro g S d alpha beta maxi orig seq kp hlegal hfk
    cases d with
    | zero =>
        have h0 : minimax g 0 S alpha beta maxi orig seq = ⟨evaluate g S, seq⟩ := rfl
        rw [h0]
        exact heval g S kp hlegal hfk
    | succ d =>
        unfold minimax
        rw [hlegal, hfk]
        cases hatt : isSquareAttacked S kp.1 kp.2 (oppositeColor S.activeColor) with
        | true => simp [hatt]
        | false => simp [hatt]

/-- A constructed back-rank mate with black to move, used to discharge
the hypotheses of the terminal minimax theorem. -/
def mateState : GameState :=
  (parseFEN ['R', '5', 'k', '1', '/', '5', 'p', 'p', 'p', '/', '8', '/', '8',
    '/', '8', '/', '8', '/', '8', '/', '7', 'K', ' ', 'b', ' ', '-', ' ',
    '-', ' ', '0', ' ', '1']).toOption.getD
    ⟨[], 'w', ⟨false, false, false, false⟩, none, none, none⟩

/-- Witness for C4: the mate position has no legal moves, its king is
found on g8, and depth-1 minimax returns the mate score for black. -/
theorem minimax_terminal_spec_witness :
    generateLegalMoves mateState = [] ∧
      findKing mateState mateState.activeColor = some (0, 6) ∧
      (minimax defaultGenome 1 mateState Score.negInf Score.posInf false true
          []).score =
        (if isSquareAttacked mateState 0 6 (oppositeColor mateState.activeColor) =
            true
         then Score.num (if mateState.activeColor = 'w' then -100000 else 100000)
         else Score.num 0) := by
  have h1 : generateLegalMoves mateState = [] := by decide
  have h2 : findKing mateState mateState.activeColor = some (0, 6) := by decide
  exact ⟨h1, h2, minimax_terminal_spec.2 defaultGenome mateState 1 Score.negInf
    Score.posInf false true [] (0, 6) h1 h2⟩

/-! ## Claim C5: helpers -/

theorem any_congr {α} {l : List α} {f g : α → Bool} (h : ∀ a ∈ l, f a = g a) :
    l.any f = l.any g := by
  induction l with
  | nil => rfl
  | cons x xs ih =>
      simp only [List.any_cons]
      rw [h x (List.mem_cons_self x xs), ih (fun a ha => h a (List.mem_cons_of_mem x ha))]

theorem findKing_some_spec (S : GameState) (color : Char) (kp : Int × Int)
    (h : findKing S color = some kp) :
    getCell S.board kp.1 kp.2 = some (if color = 'w' then 'K' else 'k') := by
  unfold findKing at h
  obtain ⟨r0, hr0, hrow⟩ := List.exists_of_findSome?_eq_some h
  obtain ⟨c0, hc0, hcell⟩ := List.exists_of_findSome?_eq_some hrow
  by_cases hcond : getCell S.board (Int.ofNat r0) (Int.ofNat c0) =
      some (if color = 'w' then 'K' else 'k')
  · rw [if_pos hcond] at hcell
    obtain rfl : (Int.ofNat r0, Int.ofNat c0) = kp := Option.some.inj hcell
    exact hcond
  · rw [if_neg hcond] at hcell
    exact Option.noConfusion hcell

theorem findKing_unique (S : GameState) (color : Char) (kp : Int × Int)
    (hhit : getCell S.board kp.1 kp.2 = some (if color = 'w' then 'K' else 'k'))
    (huniq : ∀ r c : Int,
      getCell S.board r c = some (if color = 'w' then 'K' else 'k') →
        r = kp.1 ∧ c = kp.2) :
    findKing S color = some kp := by
  cases hf : findKing S color with
  | none =>
      exfalso
      exact (findKing_eq_none_iff S color).mp hf kp.1 kp.2 hhit
  | some kq =>
      have hcell := findKing_some_spec S color kq hf
      obtain ⟨h1, h2⟩ := huniq kq.1 kq.2 hcell
      have : kq = kp := Prod.ext h1 h2
      rw [this]

/-- A downward ray scan only looks at rows at most its starting row, so
two states whose boards agree outside row 7 scan identically when the
scan starts at row 6 or below and steps down or stays. -/
theorem rayHitGo_congr (S2 S : GameState) (att k1 k2 : Char) (dr dc : Int)
    (hdr : dr ≤ 0)
    (hagree : ∀ r c : Int, r ≠ 7 → getCell S2.board r c = getCell S.board r c)
    (fuel : Nat) :
    ∀ nr nc : Int, nr ≤ 6 →
      rayHitGo S2 att k1 k2 dr dc fuel nr nc =
        rayHitGo S att k1 k2 dr dc fuel nr nc := by
  induction fuel with
  | zero => intro nr nc _; rfl
  | succ fuel ih =>
      intro nr nc hnr
      unfold rayHitGo
      rw [hagree nr nc (by omega)]
      split
      · split
        · exact ih (nr + dr) (nc + dc) (by omega)
        · rfl
      · rfl

theorem rayHitGo_succ (S : GameState) (att k1 k2 : Char) (dr dc : Int)
    (fuel : Nat) (nr nc : Int) :
    rayHitGo S att k1 k2 dr dc (fuel + 1) nr nc =
      (if onBoard nr nc = true then
        match getCell S.board nr nc with
        | none => rayHitGo S att k1 k2 dr dc fuel (nr + dr) (nc + dc)
        | some t =>
            (decide (pieceColor t = att) &&
              (decide (t.toLower = k1) || decide (t.toLower = k2)))
      else false) := rfl

theorem rayHitGo_empty (S : GameState) (att k1 k2 : Char) (dr dc : Int)
    (fuel : Nat) (nr nc : Int) (hob : onBoard nr nc = true)
    (hcell : getCell S.board nr nc = none) :
    rayHitGo S att k1 k2 dr dc (fuel + 1) nr nc =
      rayHitGo S att k1 k2 dr dc fuel (nr + dr) (nc + dc) := by
  rw [rayHitGo_succ, if_pos hob, hcell]

theorem rayHitGo_blocked (S : GameState) (att k1 k2 : Char) (dr dc : Int)
    (fuel : Nat) (nr nc : Int) (t : Char) (hob : onBoard nr nc = true)
    (hcell : getCell S.board nr nc = some t) :
    rayHitGo S att k1 k2 dr dc (fuel + 1) nr nc =
      (decide (pieceColor t = att) &&
        (decide (t.toLower = k1) || decide (t.toLower = k2))) := by
  rw [rayHitGo_succ, if_pos hob, hcell]

theorem rayHitGo_off (S : GameState) (att k1 k2 : Char) (dr dc : Int)
    (fuel : Nat) (nr nc : Int) (hob : onBoard nr nc = false) :
    rayHitGo S att k1 k2 dr dc (fuel + 1) nr nc = false := by
  rw [rayHitGo_succ, if_neg (by simp [hob])]

theorem castlingAfterKing_le (p : Cell) (c : Castling) :
    ((castlingAfterKing p c).wK = true → c.wK = true) ∧
      ((castlingAfterKing p c).wQ = true → c.wQ = true) := by
  unfold castlingAfterKing
  cases p with
  | none => exact ⟨id, id⟩
  | some q =>
      dsimp only
      split_ifs <;> simp

theorem castlingAfterRookFrom_le (p : Cell) (fr fc : Int) (c : Castling) :
    ((castlingAfterRookFrom p fr fc c).wK = true → c.wK = true) ∧
      ((castlingAfterRookFrom p fr fc c).wQ = true → c.wQ = true) := by
  unfold castlingAfterRookFrom
  cases p with
  | none => exact ⟨id, id⟩
  | some q =>
      dsimp only
      split_ifs <;> simp

theorem castlingAfterRookCapture_le (p : Cell) (tr tc : Int) (c : Castling) :
    ((castlingAfterRookCapture p tr tc c).wK = true → c.wK = true) ∧
      ((castlingAfterRookCapture p tr tc c).wQ = true → c.wQ = true) := by
  unfold castlingAfterRookCapture
  cases p with
  | none => exact ⟨id, id⟩
  | some q =>
      dsimp only
      split_ifs <;> simp

/-- White castling rights only ever go from true to false across a move. -/
theorem doMove_castling_mono (S' : GameState) (m' : Move) :
    ((doMove S' m').castling.wK = true → S'.castling.wK = true) ∧
      ((doMove S' m').castling.wQ = true → S'.castling.wQ = true) := by
  have hc : (doMove S' m').castling =
      castlingAfterRookCapture m'.capture m'.toSq.1 m'.toSq.2
        (castlingAfterRookFrom (getCell S'.board m'.fromSq.1 m'.fromSq.2)
          m'.fromSq.1 m'.fromSq.2
          (castlingAfterKing (getCell S'.board m'.fromSq.1 m'.fromSq.2)
            S'.castling)) := rfl
  rw [hc]
  constructor
  · intro h
    exact (castlingAfterKing_le _ _).1
      ((castlingAfterRookFrom_le _ _ _ _).1
        ((castlingAfterRookCapture_le _ _ _ _).1 h))
  · intro h
    exact (castlingAfterKing_le _ _).2
      ((castlingAfterRookFrom_le _ _ _ _).2
        ((castlingAfterRookCapture_le _ _ _ _).2 h))

/-- The white king-side castle move object as `kingMoves` pushes it. -/
def wkCastle : Move := mkMove 7 4 7 6 'K' none none (castleFlag CastleSide.K)

/-- C5: with the white king on e1, rook on h1, king-side right held,
f1 and g1 empty, e1 f1 g1 unattacked by black and white to move, the
king-side castle is legal; applying it puts the king on g1 and the rook
on f1 and clears both white rights, which no later `doMove` can restore. -/
theorem kingside_castle_scenario (S : GameState)
    (hdims : dims8 S.board)
    (hact : S.activeColor = 'w')
    (hK : getCell S.board 7 4 = some 'K')
    (hR : getCell S.board 7 7 = some 'R')
    (hf1 : getCell S.board 7 5 = none)
    (hg1 : getCell S.board 7 6 = none)
    (hwK : S.castling.wK = true)
    (huniq : ∀ r c : Int, getCell S.board r c = some 'K' → r = 7 ∧ c = 4)
    (hae : isSquareAttacked S 7 4 'b' = false)
    (haf : isSquareAttacked S 7 5 'b' = false)
    (hag : isSquareAttacked S 7 6 'b' = false) :
    wkCastle ∈ generateLegalMoves S ∧
      getCell (doMove S wkCastle).board 7 6 = some 'K' ∧
      getCell (doMove S wkCastle).board 7 5 = some 'R' ∧
      getCell (doMove S wkCastle).board 7 4 = none ∧
      getCell (doMove S wkCastle).board 7 7 = none ∧
      (doMove S wkCastle).castling.wK = false ∧
      (doMove S wkCastle).castling.wQ = false ∧
      (∀ (S' : GameState) (m' : Move),
        ((doMove S' m').castling.wK = true → S'.castling.wK = true) ∧
        ((doMove S' m').castling.wQ = true → S'.castling.wQ = true)) := by
  -- the board after the castle, spelled out
  have hboard : (doMove S wkCastle).board =
      setCell
        (setCell (setCell (setCell S.board 7 4 none) 7 6 (getCell S.board 7 4))
          7 5
          (getCell (setCell (setCell S.board 7 4 none) 7 6 (getCell S.board 7 4))
            7 7))
        7 7 none := rfl
  have hd0 := dims8_setCell hdims 7 4 (none : Cell)
  have hd1 := dims8_setCell hd0 7 6 (getCell S.board 7 4)
  have hd2 := dims8_setCell hd1 7 5
    (getCell (setCell (setCell S.board 7 4 none) 7 6 (getCell S.board 7 4)) 7 7)
  have hbA77 : getCell (setCell (setCell S.board 7 4 none) 7 6
      (getCell S.board 7 4)) 7 7 = some 'R' := by
    rw [getCell_setCell_ne _ _ (Or.inr (by norm_num)),
      getCell_setCell_ne _ _ (Or.inr (by norm_num))]
    exact hR
  have hpost76 : getCell (doMove S wkCastle).board 7 6 = some 'K' := by
    rw [hboard, getCell_setCell_ne _ _ (Or.inr (by norm_num)),
      getCell_setCell_ne _ _ (Or.inr (by norm_num)),
      getCell_setCell_self hd0 (by norm_num) (by norm_num) (by norm_num)
        (by norm_num)]
    exact hK
  have hpost75 : getCell (doMove S wkCastle).board 7 5 = some 'R' := by
    rw [hboard, getCell_setCell_ne _ _ (Or.inr (by norm_num)),
      getCell_setCell_self hd1 (by norm_num) (by norm_num) (by norm_num)
        (by norm_num)]
    exact hbA77
  have hpost74 : getCell (doMove S wkCastle).board 7 4 = none := by
    rw [hboard, getCell_setCell_ne _ _ (Or.inr (by norm_num)),
      getCell_setCell_ne _ _ (Or.inr (by norm_num)),
      getCell_setCell_ne _ _ (Or.inr (by norm_num)),
      getCell_setCell_self hdims (by norm_num) (by norm_num) (by norm_num)
        (by norm_num)]
  have hpost77 : getCell (doMove S wkCastle).board 7 7 = none := by
    rw [hboard, getCell_setCell_self hd2 (by norm_num) (by norm_num)
      (by norm_num) (by norm_num)]
  have hagree : ∀ r c : Int, r ≠ 7 →
      getCell (doMove S wkCastle).board r c = getCell S.board r c := by
    intro r c hne
    rw [hboard, getCell_setCell_ne _ _ (Or.inl (by omega)),
      getCell_setCell_ne _ _ (Or.inl (by omega)),
      getCell_setCell_ne _ _ (Or.inl (by omega)),
      getCell_setCell_ne _ _ (Or.inl (by omega))]
  have hpostrow7 : ∀ c : Int, c ≠ 4 → c ≠ 5 → c ≠ 6 → c ≠ 7 →
      getCell (doMove S wkCastle).board 7 c = getCell S.board 7 c := by
    intro c h4 h5 h6 h7
    rw [hboard, getCell_setCell_ne _ _ (Or.inr (by omega)),
      getCell_setCell_ne _ _ (Or.inr (by omega)),
      getCell_setCell_ne _ _ (Or.inr (by omega)),
      getCell_setCell_ne _ _ (Or.inr (by omega))]
  -- membership in the king move list
  have hkm : wkCastle ∈ kingMoves S 7 4 := by
    unfold kingMoves
    rw [hK]
    dsimp only
    refine List.mem_append.mpr (Or.inl (List.mem_append.mpr (Or.inr ?_)))
    rw [if_pos (by decide)]
    refine List.mem_append.mpr (Or.inl ?_)
    rw [if_pos ?hcond]
    · exact List.mem_singleton.mpr rfl
    case hcond =>
      have henemy : oppositeColor (pieceColor 'K') = 'b' := rfl
      rw [henemy]
      simp [hwK, hf1, hg1, hae, haf, hag]
  have hpm : wkCastle ∈ pieceMovesAt S 7 4 := by
    unfold pieceMovesAt
    rw [hK]
    dsimp only
    rw [hact, if_pos (by decide), if_neg (by decide), if_neg (by decide),
      if_neg (by decide), if_neg (by decide), if_neg (by decide),
      if_pos (by decide)]
    exact hkm
  have hpseudo : wkCastle ∈ generatePseudoLegalMoves S := by
    unfold generatePseudoLegalMoves
    refine List.mem_flatMap.mpr ⟨7, List.mem_range.mpr (by norm_num),
      List.mem_flatMap.mpr ⟨4, List.mem_range.mpr (by norm_num), ?_⟩⟩
    exact hpm
  -- the post-move state facts
  have hact2 : (doMove S wkCastle).activeColor = 'b' := by
    have h0 : (doMove S wkCastle).activeColor = oppositeColor S.activeColor := rfl
    rw [h0, hact]
    rfl
  have hpostK : findKing (doMove S wkCastle) 'w' = some (7, 6) := by
    apply findKing_unique
    · rw [if_pos rfl]
      exact hpost76
    · intro r c hc
      rw [if_pos rfl] at hc
      by_cases h7 : r = 7
      · subst h7
        by_cases hc7 : c = 7
        · subst hc7
          rw [hpost77] at hc
          exact Option.noConfusion hc
        · by_cases hc6 : c = 6
          · exact ⟨rfl, hc6⟩
          · by_cases hc5 : c = 5
            · subst hc5
              rw [hpost75] at hc
              exact absurd (Option.some.inj hc) (by decide)
            · by_cases hc4 : c = 4
              · subst hc4
                rw [hpost74] at hc
                exact Option.noConfusion hc
              · rw [hpostrow7 c hc4 hc5 hc6 hc7] at hc
                exact absurd (huniq 7 c hc).2 hc4
      · rw [hagree r c h7] at hc
        exact absurd (huniq r c hc).1 h7
  -- decompose the pre-move attack information on g1
  have hag' := hag
  unfold isSquareAttacked at hag'
  simp only [Bool.or_eq_false_iff] at hag'
  obtain ⟨⟨⟨⟨hp6, hk6⟩, hd6⟩, hs6⟩, hkg6⟩ := hag'
  have hpawn : pawnAttackHit (doMove S wkCastle) 7 6 'b' =
      pawnAttackHit S 7 6 'b' := by
    unfold pawnAttackHit
    apply any_congr
    intro a ha
    dsimp only
    rw [hagree _ a (by decide)]
  have hknight : knightAttackHit (doMove S wkCastle) 7 6 'b' =
      knightAttackHit S 7 6 'b' := by
    unfold knightAttackHit
    apply any_congr
    intro a ha
    fin_cases ha <;> dsimp only <;> rw [hagree _ _ (by decide)]
  have hkga : kingAttackHit (doMove S wkCastle) 7 6 'b' =
      kingAttackHit S 7 6 'b' := by
    unfold kingAttackHit
    apply any_congr
    intro a ha
    fin_cases ha
    · dsimp only
      rw [hagree _ _ (by decide)]
    · dsimp only
      rw [hagree _ _ (by decide)]
    · dsimp only
      rw [hagree _ _ (by decide)]
    · dsimp only
      norm_num
      rw [hpost75, hf1]
      decide
    · dsimp only
      norm_num
      rw [hpost77, hR]
      decide
    · dsimp only
      rw [hagree _ _ (by decide)]
    · dsimp only
      rw [hagree _ _ (by decide)]
    · dsimp only
      rw [hagree _ _ (by decide)]
  have hdiag : diagDirs.any
      (fun d => rayHit (doMove S wkCastle) 'b' 'b' 'q' 7 6 d.1 d.2) = false := by
    rw [List.any_eq_false]
    intro d hd
    simp only [Bool.not_eq_true]
    fin_cases hd
    · exact rayHitGo_off _ _ _ _ _ _ 7 _ _ (by decide)
    · exact rayHitGo_off _ _ _ _ _ _ 7 _ _ (by decide)
    · unfold rayHit
      rw [rayHitGo_congr (doMove S wkCastle) S 'b' 'b' 'q' (-1) 1 (by norm_num)
        hagree 8 _ _ (by norm_num)]
      have hpre := List.any_eq_false.mp hd6 ((-1, 1) : Int × Int) (by decide)
      simp only [Bool.not_eq_true] at hpre
      exact hpre
    · unfold rayHit
      rw [rayHitGo_congr (doMove S wkCastle) S 'b' 'b' 'q' (-1) (-1)
        (by norm_num) hagree 8 _ _ (by norm_num)]
      have hpre := List.any_eq_false.mp hd6 ((-1, -1) : Int × Int) (by decide)
      simp only [Bool.not_eq_true] at hpre
      exact hpre
  have hstraight : straightDirs.any
      (fun d => rayHit (doMove S wkCastle) 'b' 'r' 'q' 7 6 d.1 d.2) = false := by
    rw [List.any_eq_false]
    intro d hd
    simp only [Bool.not_eq_true]
    fin_cases hd
    · exact rayHitGo_off _ _ _ _ _ _ 7 _ _ (by decide)
    · unfold rayHit
      rw [rayHitGo_congr (doMove S wkCastle) S 'b' 'r' 'q' (-1) 0 (by norm_num)
        hagree 8 _ _ (by norm_num)]
      have hpre := List.any_eq_false.mp hs6 ((-1, 0) : Int × Int) (by decide)
      simp only [Bool.not_eq_true] at hpre
      exact hpre
    · unfold rayHit
      have e1 : (7 : Int) + 0 = 7 := by norm_num
      have e2 : (6 : Int) + 1 = 7 := by norm_num
      rw [e1, e2, rayHitGo_empty _ _ _ _ _ _ 7 7 7 (by decide) hpost77]
      have e3 : (7 : Int) + 1 = 8 := by norm_num
      rw [e1, e3]
      exact rayHitGo_off _ _ _ _ _ _ 6 7 8 (by decide)
    · unfold rayHit
      have e1 : (7 : Int) + 0 = 7 := by norm_num
      have e2 : (6 : Int) + (-1) = 5 := by norm_num
      rw [e1, e2, rayHitGo_blocked _ _ _ _ _ _ 7 7 5 'R' (by decide) hpost75]
      decide
  have hattack : isSquareAttacked (doMove S wkCastle) 7 6 'b' = false := by
    unfold isSquareAttacked
    rw [hpawn, hknight, hkga, hdiag, hstraight, hp6, hk6, hkg6]
    rfl
  -- legality of the castle
  have hmem : wkCastle ∈ generateLegalMoves S := by
    unfold generateLegalMoves
    refine List.mem_filter.mpr ⟨hpseudo, ?_⟩
    show (match findKing (doMove S wkCastle)
        (oppositeColor ((doMove S wkCastle).activeColor)) with
      | none => false
      | some kp => !isSquareAttacked (doMove S wkCastle) kp.1 kp.2
          ((doMove S wkCastle).activeColor)) = true
    have hmover : oppositeColor ((doMove S wkCastle).activeColor) = 'w' := by
      rw [hact2]
      rfl
    rw [hmover, hpostK]
    show (!isSquareAttacked (doMove S wkCastle) 7 6
      ((doMove S wkCastle).activeColor)) = true
    rw [hact2, hattack]
    rfl
  -- rights after the castle
  have hcast : (doMove S wkCastle).castling =
      castlingAfterRookCapture wkCastle.capture 7 6
        (castlingAfterRookFrom (getCell S.board 7 4) 7 4
          (castlingAfterKing (getCell S.board 7 4) S.castling)) := rfl
  have hcastres : (doMove S wkCastle).castling.wK = false ∧
      (doMove S wkCastle).castling.wQ = false := by
    rw [hcast, hK]
    constructor <;> rfl
  exact ⟨hmem, hpost76, hpost75, hpost74, hpost77, hcastres.1, hcastres.2,
    doMove_castling_mono⟩

/-- A concrete position satisfying the castling-scenario hypotheses:
white king e1, white rook h1, black king e8, white to move, K right. -/
def castleState : GameState :=
  (parseFEN ['4', 'k', '3', '/', '8', '/', '8', '/', '8', '/', '8', '/', '8',
    '/', '8', '/', '4', 'K', '2', 'R', ' ', 'w', ' ', 'K', ' ', '-', ' ',
    '0', ' ', '1']).toOption.getD
    ⟨[], 'w', ⟨false, false, false, false⟩, none, none, none⟩

/-- Witness for C5 at the concrete castling position. -/
theorem kingside_castle_scenario_witness :
    (dims8 castleState.board ∧ castleState.activeColor = 'w' ∧
      getCell castleState.board 7 4 = some 'K' ∧
      getCell castleState.board 7 7 = some 'R' ∧
      getCell castleState.board 7 5 = none ∧
      getCell castleState.board 7 6 = none ∧
      castleState.castling.wK = true ∧
      isSquareAttacked castleState 7 4 'b' = false ∧
      isSquareAttacked castleState 7 5 'b' = false ∧
      isSquareAttacked castleState 7 6 'b' = false) ∧
      wkCastle ∈ generateLegalMoves castleState := by
  have h1 : dims8 castleState.board := ⟨by decide, by decide⟩
  have h2 : castleState.activeColor = 'w' := by decide
  have h3 : getCell castleState.board 7 4 = some 'K' := by decide
  have h4 : getCell castleState.board 7 7 = some 'R' := by decide
  have h5 : getCell castleState.board 7 5 = none := by decide
  have h6 : getCell castleState.board 7 6 = none := by decide
  have h7 : castleState.castling.wK = true := by decide
  have h8 : isSquareAttacked castleState 7 4 'b' = false := by decide
  have h9 : isSquareAttacked castleState 7 5 'b' = false := by decide
  have h10 : isSquareAttacked castleState 7 6 'b' = false := by decide
  have huniq : ∀ r c : Int, getCell castleState.board r c = some 'K' →
      r = 7 ∧ c = 4 := by
    intro r c hcell
    by_cases hr : 0 ≤ r ∧ r < 8 ∧ 0 ≤ c ∧ c < 8
    · obtain ⟨hr1, hr2, hr3, hr4⟩ := hr
      interval_cases r <;> interval_cases c <;> revert hcell <;> decide
    · unfold getCell at hcell
      rw [if_neg hr] at hcell
      exact Option.noConfusion hcell
  exact ⟨⟨h1, h2, h3, h4, h5, h6, h7, h8, h9, h10⟩,
    (kingside_castle_scenario castleState h1 h2 h3 h4 h5 h6 h7 huniq h8 h9
      h10).1⟩

/-! ## Claim C6 -/

/-- The double push e2-e4 as the pawn generator emits it. -/
def e2e4 : Move := mkMove 6 4 4 4 'P' none none doubleFlag

/-- A legal game prefix reaching a position where black can capture
en-passant on e3: 1. a3 d5 2. a4 d4 3. e4 and now d4xe3 e.p. -/
def epSeqA3 : Move := mkMove 6 0 5 0 'P' none none noFlags

/-- 1... d7-d5. -/
def epSeqD5 : Move := mkMove 1 3 3 3 'p' none none doubleFlag

/-- 2. a3-a4. -/
def epSeqA4 : Move := mkMove 5 0 4 0 'P' none none noFlags

/-- 2... d5-d4. -/
def epSeqD4 : Move := mkMove 3 3 4 3 'p' none none noFlags

/-- 3... d4xe3 en passant, capturing the pawn that passed over e3. -/
def epCapture : Move := mkMove 4 3 5 4 'p' (some 'P') none epFlag

/-- The position after 1. a3 d5 2. a4 d4. -/
def epMidState : GameState :=
  doMove (doMove (doMove (doMove startState epSeqA3) epSeqD5) epSeqA4) epSeqD4

/-- C6: from the standard start, e2-e4 is legal and sets the en-passant
target to e3 (row 5, column 4); in the reachable position where black
has a pawn on d4 and white just played e2-e4, the en-passant capture
onto e3 is legal and removes the white pawn from e4 (the passed-over
square), leaves the black pawn on e3, and removes nothing else from the
e3 rank. -/
theorem enpassant_e3_scenario :
    (e2e4 ∈ generateLegalMoves startState ∧
      (doMove startState e2e4).enPassant = some (5, 4)) ∧
    (epSeqA3 ∈ generateLegalMoves startState ∧
      epSeqD5 ∈ generateLegalMoves (doMove startState epSeqA3) ∧
      epSeqA4 ∈ generateLegalMoves (doMove (doMove startState epSeqA3) epSeqD5) ∧
      epSeqD4 ∈ generateLegalMoves
        (doMove (doMove (doMove startState epSeqA3) epSeqD5) epSeqA4) ∧
      e2e4 ∈ generateLegalMoves epMidState ∧
      (doMove epMidState e2e4).enPassant = some (5, 4) ∧
      epCapture ∈ generateLegalMoves (doMove epMidState e2e4) ∧
      getCell (doMove (doMove epMidState e2e4) epCapture).board 4 4 = none ∧
      getCell (doMove (doMove epMidState e2e4) epCapture).board 5 4 = some 'p' ∧
      (([0, 1, 2, 3, 5, 6, 7] : List Int).all (fun c =>
        decide (getCell (doMove (doMove epMidState e2e4) epCapture).board 5 c =
          getCell (doMove epMidState e2e4).board 5 c))) = true) := by
  decide

/-! ## Claim C9 -/

/-- C9: from the standard starting position the engine generates exactly
20 legal moves, and the 20 successor positions together admit exactly
400 legal replies (perft 1 and perft 2). -/
theorem perft_start_20_400 :
    (generateLegalMoves startState).length = 20 ∧
      ((generateLegalMoves startState).map (fun m =>
        (generateLegalMoves (doMove startState m)).length)).sum = 400 := by
  constructor
  · decide
  · decide

/-! ## Claim C3 -/

/-- Squares a rank string accounts for: digits count as themselves,
placement characters as one square. -/
def rankSquareTotal (s : List Char) : Nat :=
  (s.map (fun ch =>
    if isDigit18 ch then digitVal ch else if isPieceChar ch then 1 else 0)).sum

/-- A rank is rejected exactly when it has an unrecognized character or
its squares do not total 8 (the claim enumeration for one rank). -/
def rankBad (s : List Char) : Bool :=
  s.any (fun ch => !(isDigit18 ch || isPieceChar ch)) ||
    decide (rankSquareTotal s ≠ 8)

/-- Active color other than w or b. -/
def colorBad (s : List Char) : Bool := !(s = ['w'] || s = ['b'])

/-- Malformed en-passant field: not the dash and not `[a-h][36]`. -/
def epBad (s : List Char) : Bool :=
  !(s = ['-'] ||
    match s with
    | [f, rk] => ('a' ≤ f && f ≤ 'h') && (rk = '3' || rk = '6')
    | _ => false)

/-- The fields of the FEN input as `parseFEN` splits them. -/
def fenFields (input : List Char) : List (List Char) := splitWsF (trimWs input)

/-- The malformation condition as the claim enumerates it: field count
other than 6, rank count other than 8, some rank with a wrong square
total or an unrecognized character, a bad active color, or a bad
en-passant square.  Used to compare against the failure of `parseFEN`. -/
def fenMalformed (input : List Char) : Bool :=
  match fenFields input with
  | [placement, colorF, _, epF, _, _] =>
      let ranks := splitSlash placement
      decide (ranks.length ≠ 8) || ranks.any rankBad || colorBad colorF ||
        epBad epF
  | _ => true

theorem parseRankGo_error_iff (s : List Char) : ∀ (k : Nat) (row : List Cell),
    (∃ e, parseRankGo k row s = .error e) ↔
      (s.any (fun ch => !(isDigit18 ch || isPieceChar ch)) = true ∨
        k + rankSquareTotal s ≠ 8) := by
  induction s with
  | nil =>
      intro k row
      unfold parseRankGo rankSquareTotal
      by_cases hk : k = 8
      · rw [if_pos hk]
        simp [hk]
      · rw [if_neg hk]
        simp [hk]
  | cons ch rest ih =>
      intro k row
      unfold parseRankGo
      by_cases hd : isDigit18 ch = true
      · rw [if_pos hd, ih]
        have htot : rankSquareTotal (ch :: rest) =
            digitVal ch + rankSquareTotal rest := by
          unfold rankSquareTotal
          simp [hd]
        rw [htot]
        simp only [List.any_cons, hd, Bool.true_or, Bool.not_true,
          Bool.false_or]
        constructor
        · rintro (h | h)
          · exact Or.inl h
          · exact Or.inr (by omega)
        · rintro (h | h)
          · exact Or.inl h
          · exact Or.inr (by omega)
      · by_cases hp : isPieceChar ch = true
        · rw [if_neg hd, if_pos hp]
          have htot : rankSquareTotal (ch :: rest) =
              1 + rankSquareTotal rest := by
            unfold rankSquareTotal
            simp [hd, hp]
          rw [htot]
          simp only [List.any_cons, hd, hp, Bool.or_true, Bool.true_or,
            Bool.not_true, Bool.false_or]
          by_cases h8 : 8 ≤ k
          · rw [if_pos h8]
            constructor
            · intro _
              exact Or.inr (by omega)
            · intro _
              exact ⟨_, rfl⟩
          · rw [if_neg h8, ih]
            constructor
            · rintro (h | h)
              · exact Or.inl h
              · exact Or.inr (by omega)
            · rintro (h | h)
              · exact Or.inl h
              · exact Or.inr (by omega)
        · rw [if_neg hd, if_neg hp]
          simp only [List.any_cons, hd, hp]
          constructor
          · intro _
            left
            simp [hd, hp]
          · intro _
            exact ⟨_, rfl⟩

theorem parseRank_error_iff (s : List Char) :
    (∃ e, parseRank s = .error e) ↔ rankBad s = true := by
  unfold parseRank rankBad
  rw [parseRankGo_error_iff]
  simp only [Nat.zero_add, Bool.or_eq_true, decide_eq_true_eq]

theorem mapM_parseRank_error_iff (l : List (List Char)) :
    (∃ e, l.mapM parseRank = .error e) ↔ ∃ a ∈ l, rankBad a = true := by
  induction l with
  | nil =>
      simp only [List.mapM_nil]
      constructor
      · rintro ⟨e, he⟩
        exact Except.noConfusion he
      · rintro ⟨a, ha, _⟩
        exact absurd ha (List.not_mem_nil a)
  | cons a t ih =>
      rw [List.mapM_cons]
      cases hfa : parseRank a with
      | error e =>
          constructor
          · intro _
            exact ⟨a, List.mem_cons_self a t, (parseRank_error_iff a).mp ⟨e, hfa⟩⟩
          · intro _
            exact ⟨e, rfl⟩
      | ok b =>
          have hgood : rankBad a = false := by
            cases hx : rankBad a
            · rfl
            · obtain ⟨e, he⟩ := (parseRank_error_iff a).mpr hx
              rw [hfa] at he
              exact Except.noConfusion he
          cases hmt : t.mapM parseRank with
          | error e2 =>
              constructor
              · intro _
                obtain ⟨a2, ha2, hb2⟩ := ih.mp ⟨e2, hmt⟩
                exact ⟨a2, List.mem_cons_of_mem a ha2, hb2⟩
              · intro _
                exact ⟨e2, rfl⟩
          | ok bs =>
              constructor
              · rintro ⟨e, he⟩
                exact Except.noConfusion he
              · rintro ⟨a2, ha2, hb2⟩
                rcases List.mem_cons.mp ha2 with rfl | ha2t
                · rw [hb2] at hgood
                  exact Bool.noConfusion hgood
                · obtain ⟨e, he⟩ := ih.mpr ⟨a2, ha2t, hb2⟩
                  rw [hmt] at he
                  exact Except.noConfusion he

theorem parseEp_error_iff (s : List Char) :
    (∃ e, parseEp s = .error e) ↔ epBad s = true := by
  unfold parseEp epBad
  rcases s with _ | ⟨f, _ | ⟨rk, _ | ⟨x, rest⟩⟩⟩
  · simp
  · by_cases hf : f = '-'
    · subst hf
      simp
    · simp [hf]
  · have hdash : ¬([f, rk] = ['-']) := by simp
    rw [if_neg hdash]
    have hred : (match [f, rk] with
        | [f, rk] => ('a' ≤ f && f ≤ 'h') && (rk = '3' || rk = '6')
        | _ => false) = (('a' ≤ f && f ≤ 'h') && (rk = '3' || rk = '6')) := rfl
    rw [hred]
    have hdashb : decide ([f, rk] = ['-']) = false := by simp
    rw [hdashb]
    cases hcond : (('a' ≤ f && f ≤ 'h') && (rk = '3' || rk = '6'))
    · simp [hcond]
    · simp [hcond]
  · simp

theorem list_len6 {α} (l : List α) (h : l.length = 6) :
    ∃ a b c d e f, l = [a, b, c, d, e, f] := by
  cases l with
  | nil => simp at h
  | cons a l1 =>
      cases l1 with
      | nil => simp at h
      | cons b l2 =>
          cases l2 with
          | nil => simp at h
          | cons c l3 =>
              cases l3 with
              | nil => simp at h
              | cons d l4 =>
                  cases l4 with
                  | nil => simp at h
                  | cons e l5 =>
                      cases l5 with
                      | nil => simp at h
                      | cons f l6 =>
                          cases l6 with
                          | nil => exact ⟨a, b, c, d, e, f, rfl⟩
                          | cons g l7 => simp at h

/-- Behaviour of `parseFEN` once the six fields are known: it fails
exactly on the enumerated placement, color and en-passant conditions,
and on success the clock fields fall back to 0 and 1 when `Number`
yields NaN. -/
theorem parseFEN_fields_spec (s placement colorF castF epF hmF fmF : List Char)
    (heq : splitWsF (trimWs s) = [placement, colorF, castF, epF, hmF, fmF]) :
    ((∃ e, parseFEN s = .error e) ↔
      ((splitSlash placement).length ≠ 8 ∨
        (∃ a ∈ splitSlash placement, rankBad a = true) ∨
        colorBad colorF = true ∨ epBad epF = true)) ∧
    (¬((splitSlash placement).length ≠ 8 ∨
        (∃ a ∈ splitSlash placement, rankBad a = true) ∨
        colorBad colorF = true ∨ epBad epF = true) →
      ∃ S', parseFEN s = .ok S' ∧
        (jsNumberDefined hmF = false → S'.halfmove = some 0) ∧
        (jsNumberDefined fmF = false → S'.fullmove = some 1)) := by
  have hbody : parseFEN s =
      (if (splitSlash placement).length = 8 then
        match (splitSlash placement).mapM parseRank with
        | .error e => .error e
        | .ok board =>
            if colorF = ['w'] || colorF = ['b'] then
              let activeColor := if colorF = ['w'] then 'w' else 'b'
              let castling : Castling :=
                ⟨decide ('K' ∈ castF), decide ('Q' ∈ castF),
                 decide ('k' ∈ castF), decide ('q' ∈ castF)⟩
              match parseEp epF with
              | .error e => .error e
              | .ok ep =>
                  let halfmove :=
                    if jsNumberDefined hmF then jsParseInt hmF else some 0
                  let fullmove :=
                    if jsNumberDefined fmF then jsParseInt fmF else some 1
                  .ok ⟨board, activeColor, castling, ep, halfmove, fullmove⟩
            else .error "Invalid FEN: active color must be w or b."
      else .error "Invalid FEN: must have 8 ranks.") := by
    unfold parseFEN
    rw [heq]
  rw [hbody]
  by_cases h8 : (splitSlash placement).length = 8
  · rw [if_pos h8]
    cases hmm : (splitSlash placement).mapM parseRank with
    | error e =>
        constructor
        · constructor
          · intro _
            exact Or.inr (Or.inl (mapM_parseRank_error_iff _ |>.mp ⟨e, hmm⟩))
          · intro _
            exact ⟨e, rfl⟩
        · intro hno
          exact absurd (Or.inr (Or.inl (mapM_parseRank_error_iff _ |>.mp
            ⟨e, hmm⟩))) hno
    | ok board =>
        have hranksOk : ¬∃ a ∈ splitSlash placement, rankBad a = true := by
          intro hex
          obtain ⟨e, he⟩ := (mapM_parseRank_error_iff _).mpr hex
          rw [hmm] at he
          exact Except.noConfusion he
        dsimp only
        by_cases hcol : (colorF = ['w'] || colorF = ['b']) = true
        · rw [if_pos hcol]
          have hcolOk : colorBad colorF = false := by
            unfold colorBad
            rw [hcol]
            rfl
          cases hep : parseEp epF with
          | error e =>
              constructor
              · constructor
                · intro _
                  exact Or.inr (Or.inr (Or.inr
                    ((parseEp_error_iff epF).mp ⟨e, hep⟩)))
                · intro _
                  exact ⟨e, rfl⟩
              · intro hno
                exact absurd (Or.inr (Or.inr (Or.inr
                  ((parseEp_error_iff epF).mp ⟨e, hep⟩)))) hno
          | ok ep =>
              dsimp only
              have hepOk : epBad epF = false := by
                cases hx : epBad epF
                · rfl
                · obtain ⟨e, he⟩ := (parseEp_error_iff epF).mpr hx
                  rw [hep] at he
                  exact Except.noConfusion he
              constructor
              · constructor
                · rintro ⟨e, he⟩
                  exact Except.noConfusion he
                · rintro (h | h | h | h)
                  · exact absurd h8 h
                  · exact absurd h hranksOk
                  · rw [hcolOk] at h
                    exact Bool.noConfusion h
                  · rw [hepOk] at h
                    exact Bool.noConfusion h
              · intro _
                refine ⟨_, rfl, ?_, ?_⟩
                · intro hnan
                  show (if jsNumberDefined hmF = true then jsParseInt hmF
                    else some 0) = some 0
                  rw [hnan]
                  rfl
                · intro hnan
                  show (if jsNumberDefined fmF = true then jsParseInt fmF
                    else some 1) = some 1
                  rw [hnan]
                  rfl
        · rw [if_neg hcol]
          have hcolBad : colorBad colorF = true := by
            unfold colorBad
            simp only [Bool.not_eq_true] at hcol
            rw [hcol]
            rfl
          constructor
          · constructor
            · intro _
              exact Or.inr (Or.inr (Or.inl hcolBad))
            · intro _
              exact ⟨_, rfl⟩
          · intro hno
            exact absurd (Or.inr (Or.inr (Or.inl hcolBad))) hno
  · rw [if_neg h8]
    constructor
    · constructor
      · intro _
        exact Or.inl h8
      · intro _
        exact ⟨_, rfl⟩
    · intro hno
      exact absurd (Or.inl h8) hno

/-- C3: `parseFEN` throws exactly when the field count differs from 6,
the rank count differs from 8, a rank has a wrong square total or an
unrecognized character, the active color is neither w nor b, or the
en-passant field is malformed; with well-formed other fields, clock
fields on which `Number` is NaN fall back to 0 and 1 without failing. -/
theorem parseFEN_error_exactly :
    (∀ s : List Char, (∃ e, parseFEN s = .error e) ↔ fenMalformed s = true) ∧
    (∀ (s placement colorF castF epF hmF fmF : List Char),
      fenFields s = [placement, colorF, castF, epF, hmF, fmF] →
      fenMalformed s = false →
      ∃ S', parseFEN s = .ok S' ∧
        (jsNumberDefined hmF = false → S'.halfmove = some 0) ∧
        (jsNumberDefined fmF = false → S'.fullmove = some 1)) := by
  have hmal : ∀ (s placement colorF castF epF hmF fmF : List Char),
      fenFields s = [placement, colorF, castF, epF, hmF, fmF] →
      (fenMalformed s = true ↔
        ((splitSlash placement).length ≠ 8 ∨
          (∃ a ∈ splitSlash placement, rankBad a = true) ∨
          colorBad colorF = true ∨ epBad epF = true)) := by
    intro s p c cf ep hm fm heq
    unfold fenMalformed
    rw [heq]
    dsimp only
    simp only [Bool.or_eq_true, decide_eq_true_eq, List.any_eq_true]
    constructor
    · rintro (((h | h) | h) | h)
      · exact Or.inl h
      · exact Or.inr (Or.inl h)
      · exact Or.inr (Or.inr (Or.inl h))
      · exact Or.inr (Or.inr (Or.inr h))
    · rintro (h | h | h | h)
      · exact Or.inl (Or.inl (Or.inl h))
      · exact Or.inl (Or.inl (Or.inr h))
      · exact Or.inl (Or.inr h)
      · exact Or.inr h
  constructor
  · intro s
    rcases hsp : splitWsF (trimWs s) with _ |
      ⟨f1, _ | ⟨f2, _ | ⟨f3, _ | ⟨f4, _ | ⟨f5, _ | ⟨f6, _ | ⟨f7, rest⟩⟩⟩⟩⟩⟩⟩
    · constructor
      · intro _
        unfold fenMalformed fenFields
        rw [hsp]
      · intro _
        refine ⟨"Invalid FEN: must have 6 fields.", ?_⟩
        unfold parseFEN
        rw [hsp]
    · constructor
      · intro _
        unfold fenMalformed fenFields
        rw [hsp]
      · intro _
        refine ⟨"Invalid FEN: must have 6 fields.", ?_⟩
        unfold parseFEN
        rw [hsp]
    · constructor
      · intro _
        unfold fenMalformed fenFields
        rw [hsp]
      · intro _
        refine ⟨"Invalid FEN: must have 6 fields.", ?_⟩
        unfold parseFEN
        rw [hsp]
    · constructor
      · intro _
        unfold fenMalformed fenFields
        rw [hsp]
      · intro _
        refine ⟨"Invalid FEN: must have 6 fields.", ?_⟩
        unfold parseFEN
        rw [hsp]
    · constructor
      · intro _
        unfold fenMalformed fenFields
        rw [hsp]
      · intro _
        refine ⟨"Invalid FEN: must have 6 fields.", ?_⟩
        unfold parseFEN
        rw [hsp]
    · constructor
      · intro _
        unfold fenMalformed fenFields
        rw [hsp]
      · intro _
        refine ⟨"Invalid FEN: must have 6 fields.", ?_⟩
        unfold parseFEN
        rw [hsp]
    · have heqf : fenFields s = [f1, f2, f3, f4, f5, f6] := by
        unfold fenFields
        exact hsp
      rw [(parseFEN_fields_spec s f1 f2 f3 f4 f5 f6 hsp).1,
        hmal s f1 f2 f3 f4 f5 f6 heqf]
    · constructor
      · intro _
        unfold fenMalformed fenFields
        rw [hsp]
      · intro _
        refine ⟨"Invalid FEN: must have 6 fields.", ?_⟩
        unfold parseFEN
        rw [hsp]
  · intro s p c cf ep hm fm heq hfalse
    have hsp : splitWsF (trimWs s) = [p, c, cf, ep, hm, fm] := heq
    apply (parseFEN_fields_spec s p c cf ep hm fm hsp).2
    intro hdisj
    have := (hmal s p c cf ep hm fm heq).mpr hdisj
    rw [hfalse] at this
    exact Bool.noConfusion this

/-- A FEN whose halfmove and fullmove fields are not numbers. -/
def nanFen : List Char :=
  ['8', '/', '8', '/', '8', '/', '8', '/', '8', '/', '8', '/', '8', '/', '8',
   ' ', 'w', ' ', '-', ' ', '-', ' ', 'x', ' ', 'y']

/-- Witness for C3: the NaN-clock input parses with halfmove 0 and
fullmove 1. -/
theorem parseFEN_error_exactly_witness :
    fenFields nanFen =
      [['8', '/', '8', '/', '8', '/', '8', '/', '8', '/', '8', '/', '8', '/',
        '8'], ['w'], ['-'], ['-'], ['x'], ['y']] ∧
    fenMalformed nanFen = false ∧
    ∃ S', parseFEN nanFen = .ok S' ∧
      (jsNumberDefined ['x'] = false → S'.halfmove = some 0) ∧
      (jsNumberDefined ['y'] = false → S'.fullmove = some 1) := by
  have h1 : fenFields nanFen =
      [['8', '/', '8', '/', '8', '/', '8', '/', '8', '/', '8', '/', '8', '/',
        '8'], ['w'], ['-'], ['-'], ['x'], ['y']] := by decide
  have h2 : fenMalformed nanFen = false := by decide
  exact ⟨h1, h2, parseFEN_error_exactly.2 nanFen _ _ _ _ _ _ h1 h2⟩

/-! ## Claim C2: FEN round trip -/

/-- Modelled from the spec: decimal digits of a natural number, most
significant first, with explicit fuel (one digit is produced per fuel
step, and `n` itself always suffices). -/
def natCharsGo : Nat → Nat → List Char → List Char
  | 0, _, acc => acc
  | fuel + 1, n, acc =>
      let d := Char.ofNat ('0'.toNat + n % 10)
      if n < 10 then d :: acc else natCharsGo fuel (n / 10) (d :: acc)

/-- Modelled from the spec: decimal digits of a natural number. -/
def natChars (n : Nat) : List Char := natCharsGo (n + 1) n []

/-- Modelled from the spec: the JS number-to-string coercion on an
integer. -/
def intChars (i : Int) : List Char :=
  if i < 0 then '-' :: natChars (-i).toNat else natChars i.toNat

/-- Modelled from the spec: the JS string coercion of a clock value,
where the absent value (NaN) prints as `NaN`. -/
def clockChars : Option Int → List Char
  | none => ['N', 'a', 'N']
  | some i => intChars i

/-- Modelled from the spec: `serialize(Position) -> text`, standard
6-field FEN.  The source has no 6-field serializer (its `positionKey`
emits only placement, side, castling and en passant), so the spec's
serializer is modelled by extending `positionKey` with the halfmove and
fullmove clocks rendered by the JS number-to-string coercion. -/
def serializeFEN (S : GameState) : List Char :=
  positionKey S ++ ' ' :: clockChars S.halfmove ++ ' ' :: clockChars S.fullmove

/-- A cell is empty or holds one of the twelve piece characters. -/
def cellOkB (cl : Cell) : Bool :=
  match cl with
  | none => true
  | some p => isPieceChar p

/-- State well-formedness: an 8x8 board of valid cells, a definite side
to move, and an en-passant target on the two middle ranks the engine can
produce.  Every state the engine builds satisfies it. -/
def WF (S : GameState) : Prop :=
  dims8 S.board ∧
  (∀ row ∈ S.board, ∀ cl ∈ row, cellOkB cl = true) ∧
  (S.activeColor = 'w' ∨ S.activeColor = 'b') ∧
  (∀ rc : Int × Int, S.enPassant = some rc →
    (rc.1 = 2 ∨ rc.1 = 5) ∧ 0 ≤ rc.2 ∧ rc.2 < 8)

/-- Reachable positions of the session flow of the source: a state
accepted by `parseFEN`, then advanced by legal moves via `doMove`. -/
inductive Reachable : GameState → Prop
  | init (fen : List Char) (S : GameState) (h : parseFEN fen = .ok S) :
      Reachable S
  | step (S : GameState) (m : Move) (hS : Reachable S)
      (hm : m ∈ generateLegalMoves S) : Reachable (doMove S m)

theorem splitAny_cons (p : Char → Bool) (c : Char) (t : List Char) :
    splitAny p (c :: t) =
      (if p c then [] :: splitAny p t
       else
         match splitAny p t with
         | [] => [[c]]
         | f :: rest => (c :: f) :: rest) := rfl

theorem splitAny_ne_nil (p : Char → Bool) : ∀ s : List Char, splitAny p s ≠ []
  | [] => by simp [splitAny]
  | c :: t => by
      rw [splitAny_cons]
      split
      · exact fun h => List.noConfusion h
      · cases hsp : splitAny p t with
        | nil => simp
        | cons f rest => simp

theorem splitAny_cons_eq (p : Char → Bool) (c : Char) (t : List Char)
    (f : List Char) (rest : List (List Char)) (h : splitAny p t = f :: rest) :
    splitAny p (c :: t) = if p c then [] :: f :: rest else (c :: f) :: rest := by
  rw [splitAny_cons, h]

theorem splitAny_append_sep (p : Char → Bool) (sep : Char) (hsep : p sep = true)
    (w : List Char) : ∀ (rest : List Char), (∀ ch ∈ w, p ch = false) →
    splitAny p (w ++ sep :: rest) = w :: splitAny p rest := by
  induction w with
  | nil =>
      intro rest _
      rw [List.nil_append]
      cases hsp : splitAny p rest with
      | nil => exact absurd hsp (splitAny_ne_nil p rest)
      | cons f r =>
          rw [splitAny_cons_eq p sep rest f r hsp, if_pos hsep]
  | cons c w ih =>
      intro rest hw
      have hc : p c = false := hw c (List.mem_cons_self c w)
      have ht := ih rest (fun ch hch => hw ch (List.mem_cons_of_mem c hch))
      rw [List.cons_append, splitAny_cons_eq p c _ _ _ ht]
      simp [hc]

theorem splitAny_no_sep (p : Char → Bool) : ∀ (w : List Char),
    (∀ ch ∈ w, p ch = false) → splitAny p w = [w] := by
  intro w
  induction w with
  | nil =>
      intro _
      rfl
  | cons c t ih =>
      intro hw
      have ht := ih (fun ch hch => hw ch (List.mem_cons_of_mem c hch))
      rw [splitAny_cons_eq p c t t [] ht]
      simp [hw c (List.mem_cons_self c t)]

theorem splitAny_snoc_sep (p : Char → Bool) (s : List Char) (c : Char)
    (hc : p c = true) :
    ∃ h t, splitAny p s = h :: t ∧ splitAny p (s ++ [c]) = h :: (t ++ [[]]) := by
  induction s with
  | nil => exact ⟨[], [], rfl, by simp [splitAny, hc]⟩
  | cons a s ih =>
      obtain ⟨h, t, h1, h2⟩ := ih
      by_cases ha : p a = true
      · refine ⟨[], h :: t, ?_, ?_⟩
        · rw [splitAny_cons_eq p a s h t h1]
          simp [ha]
        · rw [List.cons_append, splitAny_cons_eq p a (s ++ [c]) h (t ++ [[]]) h2]
          simp [ha]
      · have ha2 : p a = false := by
          cases hx : p a
          · rfl
          · exact absurd hx ha
        refine ⟨a :: h, t, ?_, ?_⟩
        · rw [splitAny_cons_eq p a s h t h1]
          simp [ha2]
        · rw [List.cons_append, splitAny_cons_eq p a (s ++ [c]) h (t ++ [[]]) h2]
          simp [ha2]

theorem splitWsF_snoc_ws (s : List Char) (c : Char) (hc : isWs c = true) :
    splitWsF (s ++ [c]) = splitWsF s := by
  obtain ⟨h, t, h1, h2⟩ := splitAny_snoc_sep isWs s c hc
  unfold splitWsF
  rw [h1, h2]
  have hsh : h :: (t ++ [[]]) = (h :: t) ++ [[]] := by simp
  rw [hsh, List.filter_append]
  simp

theorem splitWsF_dropWhile (s : List Char) :
    splitWsF (s.dropWhile isWs) = splitWsF s := by
  induction s with
  | nil => rfl
  | cons c t ih =>
      rw [List.dropWhile_cons]
      by_cases hc : isWs c = true
      · rw [if_pos hc, ih]
        unfold splitWsF
        cases hsp : splitAny isWs t with
        | nil => exact absurd hsp (splitAny_ne_nil isWs t)
        | cons f r =>
            rw [splitAny_cons_eq isWs c t f r hsp]
            simp [hc]
      · rw [if_neg hc]

theorem splitWsF_dropWhileEnd (s : List Char) :
    splitWsF ((s.reverse.dropWhile isWs).reverse) = splitWsF s := by
  induction s using List.reverseRecOn with
  | nil => rfl
  | append_singleton t c ih =>
      by_cases hc : isWs c = true
      · have h1 : (t ++ [c]).reverse.dropWhile isWs =
            t.reverse.dropWhile isWs := by
          simp [List.dropWhile_cons, hc]
        rw [h1, ih, splitWsF_snoc_ws t c hc]
      · have h1 : (t ++ [c]).reverse.dropWhile isWs = c :: t.reverse := by
          simp [List.dropWhile_cons, hc]
        rw [h1]
        simp

theorem splitWsF_trimWs (s : List Char) : splitWsF (trimWs s) = splitWsF s := by
  unfold trimWs
  rw [splitWsF_dropWhileEnd (s.dropWhile isWs), splitWsF_dropWhile s]

theorem splitWsF_six (f1 f2 f3 f4 f5 f6 : List Char)
    (h1 : f1 ≠ []) (w1 : ∀ ch ∈ f1, isWs ch = false)
    (h2 : f2 ≠ []) (w2 : ∀ ch ∈ f2, isWs ch = false)
    (h3 : f3 ≠ []) (w3 : ∀ ch ∈ f3, isWs ch = false)
    (h4 : f4 ≠ []) (w4 : ∀ ch ∈ f4, isWs ch = false)
    (h5 : f5 ≠ []) (w5 : ∀ ch ∈ f5, isWs ch = false)
    (h6 : f6 ≠ []) (w6 : ∀ ch ∈ f6, isWs ch = false) :
    splitWsF (f1 ++ ' ' :: (f2 ++ ' ' :: (f3 ++ ' ' :: (f4 ++ ' ' ::
      (f5 ++ ' ' :: f6))))) = [f1, f2, f3, f4, f5, f6] := by
  unfold splitWsF
  rw [splitAny_append_sep isWs ' ' (by decide) f1 _ w1,
      splitAny_append_sep isWs ' ' (by decide) f2 _ w2,
      splitAny_append_sep isWs ' ' (by decide) f3 _ w3,
      splitAny_append_sep isWs ' ' (by decide) f4 _ w4,
      splitAny_append_sep isWs ' ' (by decide) f5 _ w5,
      splitAny_no_sep isWs f6 w6]
  simp [List.filter_cons, h1, h2, h3, h4, h5, h6]

theorem mem_intercalate_slash : ∀ (xs : List (List Char)) (ch : Char),
    ch ∈ List.intercalate ['/'] xs → ch = '/' ∨ ∃ w ∈ xs, ch ∈ w := by
  intro xs
  induction xs with
  | nil =>
      intro ch h
      simp [List.intercalate] at h
  | cons x xs ih =>
      intro ch h
      cases xs with
      | nil =>
          simp [List.intercalate] at h
          exact Or.inr ⟨x, by simp, h⟩
      | cons y ys =>
          have hx : List.intercalate ['/'] (x :: y :: ys) =
              x ++ '/' :: List.intercalate ['/'] (y :: ys) := by
            simp [List.intercalate, List.intersperse]
          rw [hx] at h
          rcases List.mem_append.mp h with h | h
          · exact Or.inr ⟨x, by simp, h⟩
          · rcases List.mem_cons.mp h with h | h
            · exact Or.inl h
            · rcases ih ch h with h | ⟨w, hw, hch⟩
              · exact Or.inl h
              · exact Or.inr ⟨w, by simp [List.mem_cons.mp hw], hch⟩

theorem splitSlash_intercalate : ∀ (xs : List (List Char)), xs ≠ [] →
    (∀ w ∈ xs, ∀ ch ∈ w, ch ≠ '/') →
    splitSlash (List.intercalate ['/'] xs) = xs := by
  intro xs
  induction xs with
  | nil =>
      intro h _
      exact absurd rfl h
  | cons x xs ih =>
      intro _ hw
      cases xs with
      | nil =>
          have hone : List.intercalate ['/'] [x] = x := by
            simp [List.intercalate]
          rw [hone]
          exact splitAny_no_sep _ x (fun ch hch => by
            simp [hw x (by simp) ch hch])
      | cons y ys =>
          have hx : List.intercalate ['/'] (x :: y :: ys) =
              x ++ '/' :: List.intercalate ['/'] (y :: ys) := by
            simp [List.intercalate, List.intersperse]
          rw [hx]
          unfold splitSlash
          rw [splitAny_append_sep _ '/' (by decide) x _ (fun ch hch => by
            simp [hw x (by simp) ch hch])]
          have htail := ih (by simp) (fun w hmem ch hch =>
            hw w (by simp [hmem]) ch hch)
          unfold splitSlash at htail
          rw [htail]

theorem intercalate_ne_nil (x : List Char) (xs : List (List Char))
    (hx : x ≠ []) : List.intercalate ['/'] (x :: xs) ≠ [] := by
  cases xs with
  | nil => simpa [List.intercalate] using hx
  | cons y ys =>
      have hx2 : List.intercalate ['/'] (x :: y :: ys) =
          x ++ '/' :: List.intercalate ['/'] (y :: ys) := by
        simp [List.intercalate, List.intersperse]
      rw [hx2]
      simp

theorem parseRankGo_nil (k : Nat) (row : List Cell) :
    parseRankGo k row [] =
      if k = 8 then .ok row
      else .error "Invalid FEN: rank does not fill 8 files." := rfl

theorem parseRankGo_cons (k : Nat) (row : List Cell) (ch : Char)
    (rest : List Char) :
    parseRankGo k row (ch :: rest) =
      if isDigit18 ch then parseRankGo (k + digitVal ch) row rest
      else if isPieceChar ch then
        if 8 ≤ k then .error "Invalid FEN: too many squares on rank."
        else parseRankGo (k + 1) (row.set k (some ch)) rest
      else .error "Invalid FEN: unexpected character." := rfl

theorem runDigit_digit18 (e : Nat) (h1 : 1 ≤ e) (h2 : e ≤ 8) :
    isDigit18 (runDigit e) = true := by
  interval_cases e <;> decide

theorem digitVal_runDigit (e : Nat) (h2 : e ≤ 8) :
    digitVal (runDigit e) = e := by
  interval_cases e <;> decide

theorem runDigit_props (e : Nat) (h1 : 1 ≤ e) (h2 : e ≤ 8) :
    isWs (runDigit e) = false ∧ runDigit e ≠ '/' := by
  interval_cases e <;> exact ⟨by decide, by decide⟩

theorem piece_char_props {p : Char} (h : isPieceChar p = true) :
    isDigit18 p = false ∧ isWs p = false ∧ p ≠ '/' := by
  simp only [isPieceChar, List.mem_cons, List.not_mem_nil, or_false,
    decide_eq_true_eq] at h
  rcases h with h | h | h | h | h | h | h | h | h | h | h | h <;> subst h <;>
    exact ⟨by decide, by decide, by decide⟩

theorem replicate_set {α} (v w : α) : ∀ (i n : Nat), i < n →
    (List.replicate n v).set i w =
      List.replicate i v ++ w :: List.replicate (n - i - 1) v := by
  intro i
  induction i with
  | zero =>
      intro n hn
      cases n with
      | zero => omega
      | succ m => simp [List.replicate_succ]
  | succ j ih =>
      intro n hn
      cases n with
      | zero => omega
      | succ m =>
          rw [List.replicate_succ, List.set_cons_succ, ih m (by omega)]
          simp [List.replicate_succ, Nat.succ_sub_succ]

/-- Parsing resumes the inverse of encoding one rank: if the parser has
already filled the cells of `pre` and the encoder still owes `e` empty
squares before the remaining `cells`, the parse completes the row. -/
theorem parseRankGo_encRowGo : ∀ (cells pre : List Cell) (e : Nat),
    (∀ cl ∈ cells, cellOkB cl = true) →
    pre.length + e + cells.length = 8 →
    parseRankGo pre.length (pre ++ List.replicate (8 - pre.length) none)
      (encRowGo e cells) = .ok (pre ++ (List.replicate e none ++ cells)) := by
  intro cells
  induction cells with
  | nil =>
      intro pre e _ hsum
      simp only [List.length_nil] at hsum
      by_cases he : 0 < e
      · have h1 : encRowGo e [] = [runDigit e] := by
          unfold encRowGo
          rw [if_pos he]
        rw [h1, parseRankGo_cons, if_pos (runDigit_digit18 e he (by omega)),
            digitVal_runDigit e (by omega), parseRankGo_nil,
            if_pos (by omega : pre.length + e = 8)]
        have h2 : 8 - pre.length = e := by omega
        rw [h2]
        simp
      · have he0 : e = 0 := by omega
        subst he0
        have h1 : encRowGo 0 ([] : List Cell) = [] := rfl
        rw [h1, parseRankGo_nil, if_pos (by omega : pre.length = 8)]
        have h2 : 8 - pre.length = 0 := by omega
        rw [h2]
        simp
  | cons cl cs ih =>
      intro pre e hok hsum
      have hcs : ∀ x ∈ cs, cellOkB x = true :=
        fun x hx => hok x (List.mem_cons_of_mem cl hx)
      simp only [List.length_cons] at hsum
      cases cl with
      | none =>
          have h1 : encRowGo e (none :: cs) = encRowGo (e + 1) cs := rfl
          rw [h1, ih pre (e + 1) hcs (by omega)]
          have h2 : List.replicate (e + 1) (none : Cell) ++ cs =
              List.replicate e none ++ none :: cs := by
            rw [List.replicate_succ']
            simp
          rw [h2]
      | some p =>
          have hp : isPieceChar p = true := hok (some p) (List.mem_cons_self _ _)
          have hnd : ¬ (isDigit18 p = true) := by
            simp [(piece_char_props hp).1]
          have h1 : encRowGo e (some p :: cs) =
              (if 0 < e then [runDigit e] else []) ++ p :: encRowGo 0 cs := rfl
          rw [h1]
          by_cases he : 0 < e
          · have hk8 : ¬ (8 ≤ pre.length + e) := by omega
            rw [if_pos he, List.singleton_append, parseRankGo_cons,
                if_pos (runDigit_digit18 e he (by omega)),
                digitVal_runDigit e (by omega), parseRankGo_cons, if_neg hnd,
                if_pos hp, if_neg hk8]
            have hset : (pre ++
                List.replicate (8 - pre.length) (none : Cell)).set
                (pre.length + e) (some p) =
                (pre ++ List.replicate e none ++ [some p]) ++
                  List.replicate (8 - (pre.length + e + 1)) none := by
              rw [List.set_append, if_neg (by omega)]
              have h3 : pre.length + e - pre.length = e := by omega
              rw [h3, replicate_set (none : Cell) (some p) e (8 - pre.length)
                (by omega)]
              have h9 : 8 - pre.length - e - 1 = 8 - (pre.length + e + 1) := by
                omega
              rw [h9]
              simp [List.append_assoc]
            rw [hset]
            have hlen2 : (pre ++ List.replicate e (none : Cell) ++
                [some p]).length = pre.length + e + 1 := by
              simp only [List.length_append, List.length_replicate,
                List.length_cons, List.length_nil]
              try omega
            rw [← hlen2,
                ih (pre ++ List.replicate e none ++ [some p]) 0 hcs
                  (by
                    simp only [List.length_append, List.length_replicate,
                      List.length_cons, List.length_nil]
                    try omega)]
            simp
          · have he0 : e = 0 := by omega
            subst he0
            have hk8 : ¬ (8 ≤ pre.length) := by omega
            rw [if_neg he, List.nil_append, parseRankGo_cons, if_neg hnd,
                if_pos hp, if_neg hk8]
            have hset : (pre ++
                List.replicate (8 - pre.length) (none : Cell)).set
                pre.length (some p) =
                (pre ++ [some p]) ++
                  List.replicate (8 - (pre.length + 1)) none := by
              rw [List.set_append, if_neg (by omega)]
              have h3 : pre.length - pre.length = 0 := by omega
              rw [h3, replicate_set (none : Cell) (some p) 0 (8 - pre.length)
                (by omega)]
              have h9 : 8 - pre.length - 0 - 1 = 8 - (pre.length + 1) := by
                omega
              rw [h9]
              simp
            rw [hset]
            have hlen2 : (pre ++ [some p]).length = pre.length + 1 := by
              simp only [List.length_append, List.length_cons, List.length_nil]
              try omega
            rw [← hlen2, ih (pre ++ [some p]) 0 hcs
              (by
                simp only [List.length_append, List.length_cons,
                  List.length_nil]
                try omega)]
            simp

theorem parseRank_encRow (row : List Cell) (hlen : row.length = 8)
    (hok : ∀ cl ∈ row, cellOkB cl = true) :
    parseRank (encRow row) = .ok row := by
  have h := parseRankGo_encRowGo row [] 0 hok (by simp [hlen])
  simpa [parseRank, encRow] using h

theorem mapM_parseRank_encRow : ∀ (rows : List (List Cell)),
    (∀ row ∈ rows, row.length = 8 ∧ ∀ cl ∈ row, cellOkB cl = true) →
    (rows.map encRow).mapM parseRank = .ok rows := by
  intro rows
  induction rows with
  | nil =>
      intro _
      rfl
  | cons r t ih =>
      intro h
      rw [List.map_cons, List.mapM_cons,
        parseRank_encRow r (h r (by simp)).1 (h r (by simp)).2,
        ih (fun row hrow => h row (List.mem_cons_of_mem r hrow))]
      rfl

theorem encRowGo_ne_nil : ∀ (cells : List Cell) (e : Nat),
    0 < e + cells.length → encRowGo e cells ≠ [] := by
  intro cells
  induction cells with
  | nil =>
      intro e he
      simp only [List.length_nil, Nat.add_zero] at he
      unfold encRowGo
      rw [if_pos he]
      simp
  | cons cl cs ih =>
      intro e he
      cases cl with
      | none => exact ih (e + 1) (by omega)
      | some p =>
          show (if 0 < e then [runDigit e] else []) ++ p :: encRowGo 0 cs ≠ []
          simp

theorem encRowGo_chars : ∀ (cells : List Cell) (e : Nat),
    e + cells.length ≤ 8 → (∀ cl ∈ cells, cellOkB cl = true) →
    ∀ ch ∈ encRowGo e cells, isWs ch = false ∧ ch ≠ '/' := by
  intro cells
  induction cells with
  | nil =>
      intro e he _ ch hch
      unfold encRowGo at hch
      split at hch
      · rcases List.mem_singleton.mp hch with rfl
        exact runDigit_props e (by omega) (by omega)
      · exact absurd hch (List.not_mem_nil ch)
  | cons cl cs ih =>
      intro e he hok ch hch
      have hcs : ∀ x ∈ cs, cellOkB x = true :=
        fun x hx => hok x (List.mem_cons_of_mem cl hx)
      cases cl with
      | none =>
          exact ih (e + 1) (by simp at he ⊢; omega) hcs ch hch
      | some p =>
          have hp : isPieceChar p = true := hok (some p) (List.mem_cons_self _ _)
          have h1 : encRowGo e (some p :: cs) =
              (if 0 < e then [runDigit e] else []) ++ p :: encRowGo 0 cs := rfl
          rw [h1] at hch
          rcases List.mem_append.mp hch with h | h
          · split at h
            · rcases List.mem_singleton.mp h with rfl
              simp only [List.length_cons] at he
              exact runDigit_props e (by omega) (by omega)
            · exact absurd h (List.not_mem_nil ch)
          · rcases List.mem_cons.mp h with rfl | h
            · exact ⟨(piece_char_props hp).2.1, (piece_char_props hp).2.2⟩
            · simp only [List.length_cons] at he
              exact ih 0 (by omega) hcs ch h

theorem parseRankGo_ok_spec : ∀ (s : List Char) (k : Nat) (row rowR : List Cell),
    row.length = 8 → (∀ cl ∈ row, cellOkB cl = true) →
    parseRankGo k row s = .ok rowR →
    rowR.length = 8 ∧ ∀ cl ∈ rowR, cellOkB cl = true := by
  intro s
  induction s with
  | nil =>
      intro k row rowR hl hok h
      rw [parseRankGo_nil] at h
      split at h
      · cases h
        exact ⟨hl, hok⟩
      · exact Except.noConfusion h
  | cons ch rest ih =>
      intro k row rowR hl hok h
      rw [parseRankGo_cons] at h
      split at h
      · exact ih _ row rowR hl hok h
      · split at h
        · split at h
          · exact Except.noConfusion h
          · refine ih _ _ rowR ?_ ?_ h
            · rw [List.length_set]
              exact hl
            · intro cl hcl
              rcases List.mem_or_eq_of_mem_set hcl with hIn | rfl
              · exact hok cl hIn
              · rename_i hpc _
                exact hpc
        · exact Except.noConfusion h

theorem mapM_parseRank_ok_spec : ∀ (l : List (List Char)) (bs : List (List Cell)),
    l.mapM parseRank = .ok bs →
    bs.length = l.length ∧
      ∀ row ∈ bs, row.length = 8 ∧ ∀ cl ∈ row, cellOkB cl = true := by
  intro l
  induction l with
  | nil =>
      intro bs h
      have h2 : (Except.ok [] : Except String (List (List Cell))) = .ok bs := h
      cases h2
      exact ⟨rfl, by simp⟩
  | cons a t ih =>
      intro bs h
      rw [List.mapM_cons] at h
      cases hfa : parseRank a with
      | error e =>
          rw [hfa] at h
          exact Except.noConfusion h
      | ok b =>
          rw [hfa] at h
          cases hmt : t.mapM parseRank with
          | error e2 =>
              rw [hmt] at h
              exact Except.noConfusion h
          | ok bs2 =>
              rw [hmt] at h
              have h2 : (Except.ok (b :: bs2) :
                  Except String (List (List Cell))) = .ok bs := h
              cases h2
              obtain ⟨hlen, hrows⟩ := ih bs2 hmt
              have hb := parseRankGo_ok_spec a 0 (List.replicate 8 none) b
                (by simp) (by simp [cellOkB]) hfa
              constructor
              · simp [hlen]
              · intro row hrow
                rcases List.mem_cons.mp hrow with rfl | hrow
                · exact hb
                · exact hrows row hrow

theorem digit_char_not_ws (m : Nat) (h : m < 10) :
    isWs (Char.ofNat ('0'.toNat + m)) = false := by
  interval_cases m <;> decide

theorem natCharsGo_ws : ∀ (fuel n : Nat) (acc : List Char),
    (∀ ch ∈ acc, isWs ch = false) →
    ∀ ch ∈ natCharsGo fuel n acc, isWs ch = false := by
  intro fuel
  induction fuel with
  | zero =>
      intro n acc hacc ch hch
      exact hacc ch hch
  | succ f ih =>
      intro n acc hacc ch hch
      unfold natCharsGo at hch
      dsimp only at hch
      split at hch
      · rcases List.mem_cons.mp hch with rfl | hch
        · exact digit_char_not_ws (n % 10) (Nat.mod_lt n (by omega))
        · exact hacc ch hch
      · refine ih (n / 10) _ ?_ ch hch
        intro x hx
        rcases List.mem_cons.mp hx with rfl | hx
        · exact digit_char_not_ws (n % 10) (Nat.mod_lt n (by omega))
        · exact hacc x hx

theorem natCharsGo_ne_nil : ∀ (fuel n : Nat) (acc : List Char), acc ≠ [] →
    natCharsGo fuel n acc ≠ [] := by
  intro fuel
  induction fuel with
  | zero =>
      intro n acc h
      exact h
  | succ f ih =>
      intro n acc h
      unfold natCharsGo
      dsimp only
      split
      · simp
      · exact ih (n / 10) _ (by simp)

theorem natChars_ne_nil (n : Nat) : natChars n ≠ [] := by
  unfold natChars natCharsGo
  dsimp only
  split
  · simp
  · exact natCharsGo_ne_nil n (n / 10) _ (by simp)

theorem intChars_ws (i : Int) : ∀ ch ∈ intChars i, isWs ch = false := by
  intro ch hch
  unfold intChars at hch
  split at hch
  · rcases List.mem_cons.mp hch with rfl | hch
    · decide
    · unfold natChars at hch
      exact natCharsGo_ws _ _ _ (by simp) ch hch
  · unfold natChars at hch
    exact natCharsGo_ws _ _ _ (by simp) ch hch

theorem clockChars_ws (o : Option Int) : ∀ ch ∈ clockChars o, isWs ch = false := by
  cases o with
  | none =>
      intro ch hch
      have h2 : ch ∈ ['N', 'a', 'N'] := hch
      fin_cases h2 <;> decide
  | some i => exact intChars_ws i

theorem intChars_ne_nil (i : Int) : intChars i ≠ [] := by
  unfold intChars
  by_cases h : i < 0
  · rw [if_pos h]
    simp
  · rw [if_neg h]
    exact natChars_ne_nil _

theorem clockChars_ne_nil (o : Option Int) : clockChars o ≠ [] := by
  cases o with
  | none => simp [clockChars]
  | some i => exact intChars_ne_nil i

/-- The castling field of `positionKey` is nonempty, whitespace-free and
decodes through the membership tests of `parseFEN` to the original
rights. -/
theorem castStr_spec (a b c d : Bool) (castStr : List Char)
    (h : castStr =
      (if ((if a then ['K'] else []) ++ (if b then ['Q'] else []) ++
          (if c then ['k'] else []) ++ (if d then ['q'] else [])) = [] then ['-']
       else (if a then ['K'] else []) ++ (if b then ['Q'] else []) ++
          (if c then ['k'] else []) ++ (if d then ['q'] else []))) :
    castStr ≠ [] ∧ (∀ ch ∈ castStr, isWs ch = false) ∧
      decide ('K' ∈ castStr) = a ∧ decide ('Q' ∈ castStr) = b ∧
      decide ('k' ∈ castStr) = c ∧ decide ('q' ∈ castStr) = d := by
  subst h
  cases a <;> cases b <;> cases c <;> cases d <;>
    exact ⟨by decide, by decide, by decide, by decide, by decide, by decide⟩

/-- The en-passant square printed by `positionKey` parses back to the
same square, for the squares the engine can produce. -/
theorem parseEp_encoded (r c : Int) (hr : r = 2 ∨ r = 5) (hc0 : 0 ≤ c)
    (hc8 : c < 8) :
    parseEp [Char.ofNat ('a'.toNat + c.toNat), runDigit (8 - r).toNat] =
      .ok (some (r, c)) ∧
    ∀ ch ∈ [Char.ofNat ('a'.toNat + c.toNat), runDigit (8 - r).toNat],
      isWs ch = false := by
  obtain ⟨n, rfl⟩ : ∃ n : Nat, c = (n : Int) := ⟨c.toNat, by omega⟩
  have hn : n < 8 := by omega
  rcases hr with rfl | rfl <;> interval_cases n <;>
    exact ⟨rfl, by decide⟩

theorem parseEp_ok_shape (s : List Char) (ep : Option (Int × Int))
    (h : parseEp s = .ok ep) (rc : Int × Int) (hrc : ep = some rc) :
    (rc.1 = 2 ∨ rc.1 = 5) ∧ 0 ≤ rc.2 ∧ rc.2 < 8 := by
  subst hrc
  unfold parseEp at h
  by_cases hd : s = ['-']
  · rw [if_pos hd] at h
    exact Option.noConfusion (Except.ok.inj h)
  · rw [if_neg hd] at h
    rcases s with _ | ⟨f, _ | ⟨rk, _ | ⟨x, rest⟩⟩⟩
    · exact Except.noConfusion h
    · exact Except.noConfusion h
    · have hred : (match [f, rk] with
        | [f, rk] =>
            if ('a' ≤ f && f ≤ 'h') && (rk = '3' || rk = '6') then
              Except.ok (some ((8 : Int) - (digitVal rk : Int),
                (f.toNat : Int) - ('a'.toNat : Int)))
            else Except.error "Invalid FEN: bad en-passant square."
        | _ => Except.error "Invalid FEN: bad en-passant square.") =
          (if ('a' ≤ f && f ≤ 'h') && (rk = '3' || rk = '6') then
            Except.ok (some ((8 : Int) - (digitVal rk : Int),
              (f.toNat : Int) - ('a'.toNat : Int)))
          else Except.error "Invalid FEN: bad en-passant square.") := rfl
      rw [hred] at h
      cases hcond : (('a' ≤ f && f ≤ 'h') && (rk = '3' || rk = '6')) with
      | false =>
          rw [hcond] at h
          simp at h
      | true =>
          rw [hcond] at h
          simp only [Bool.and_eq_true, Bool.or_eq_true, decide_eq_true_eq]
            at hcond
          obtain ⟨⟨hf1, hf2⟩, hrk⟩ := hcond
          rw [Char.le_def] at hf1 hf2
          have hfl : 97 ≤ f.toNat := hf1
          have hfh : f.toNat ≤ 104 := hf2
          have ha97 : 'a'.toNat = 97 := rfl
          have hepc : some ((8 : Int) - (digitVal rk : Int),
              (f.toNat : Int) - ('a'.toNat : Int)) = some rc :=
            Except.ok.inj h
          have hrc2 : ((8 : Int) - (digitVal rk : Int),
              (f.toNat : Int) - ('a'.toNat : Int)) = rc := Option.some.inj hepc
          subst hrc2
          refine ⟨?_, ?_, ?_⟩
          · rcases hrk with rfl | rfl
            · right
              show (8 : Int) - (digitVal '3' : Int) = 5
              decide
            · left
              show (8 : Int) - (digitVal '6' : Int) = 2
              decide
          · dsimp only
            omega
          · dsimp only
            omega
    · exact Except.noConfusion h

/-- Value of `parseFEN` when the trimmed input splits into six fields
and the placement, color and en-passant fields are accepted. -/
theorem parseFEN_six_ok (s placement colorF castF epF hmF fmF : List Char)
    (board : Board) (ep : Option (Int × Int))
    (heq : splitWsF (trimWs s) = [placement, colorF, castF, epF, hmF, fmF])
    (h8 : (splitSlash placement).length = 8)
    (hmm : (splitSlash placement).mapM parseRank = .ok board)
    (hcol : (colorF = ['w'] || colorF = ['b']) = true)
    (hep : parseEp epF = .ok ep) :
    parseFEN s = .ok
      ⟨board, if colorF = ['w'] then 'w' else 'b',
       ⟨decide ('K' ∈ castF), decide ('Q' ∈ castF), decide ('k' ∈ castF),
        decide ('q' ∈ castF)⟩, ep,
       if jsNumberDefined hmF then jsParseInt hmF else some 0,
       if jsNumberDefined fmF then jsParseInt fmF else some 1⟩ := by
  have hbody : parseFEN s =
      (if (splitSlash placement).length = 8 then
        match (splitSlash placement).mapM parseRank with
        | .error e => .error e
        | .ok board =>
            if colorF = ['w'] || colorF = ['b'] then
              let activeColor := if colorF = ['w'] then 'w' else 'b'
              let castling : Castling :=
                ⟨decide ('K' ∈ castF), decide ('Q' ∈ castF),
                 decide ('k' ∈ castF), decide ('q' ∈ castF)⟩
              match parseEp epF with
              | .error e => .error e
              | .ok ep =>
                  let halfmove :=
                    if jsNumberDefined hmF then jsParseInt hmF else some 0
                  let fullmove :=
                    if jsNumberDefined fmF then jsParseInt fmF else some 1
                  .ok ⟨board, activeColor, castling, ep, halfmove, fullmove⟩
            else .error "Invalid FEN: active color must be w or b."
      else .error "Invalid FEN: must have 8 ranks.") := by
    unfold parseFEN
    rw [heq]
  rw [hbody, if_pos h8, hmm]
  dsimp only
  rw [if_pos hcol, hep]

/-- Every state accepted by `parseFEN` is well-formed. -/
theorem parseFEN_ok_wf (s : List Char) (S : GameState)
    (h : parseFEN s = .ok S) : WF S := by
  unfold parseFEN at h
  rcases hsp : splitWsF (trimWs s) with _ |
    ⟨f1, _ | ⟨f2, _ | ⟨f3, _ | ⟨f4, _ | ⟨f5, _ | ⟨f6, _ | ⟨f7, rest⟩⟩⟩⟩⟩⟩⟩ <;>
    rw [hsp] at h
  · exact Except.noConfusion h
  · exact Except.noConfusion h
  · exact Except.noConfusion h
  · exact Except.noConfusion h
  · exact Except.noConfusion h
  · exact Except.noConfusion h
  · dsimp only at h
    by_cases h8 : (splitSlash f1).length = 8
    · rw [if_pos h8] at h
      cases hmm2 : (splitSlash f1).mapM parseRank with
      | error e =>
          rw [hmm2] at h
          exact Except.noConfusion h
      | ok board =>
          rw [hmm2] at h
          dsimp only at h
          by_cases hcol : (f2 = ['w'] || f2 = ['b']) = true
          · rw [if_pos hcol] at h
            cases hep2 : parseEp f4 with
            | error e =>
                rw [hep2] at h
                exact Except.noConfusion h
            | ok ep =>
                rw [hep2] at h
                dsimp only at h
                have hSeq : S = ⟨board, if f2 = ['w'] then 'w' else 'b',
                    ⟨decide ('K' ∈ f3), decide ('Q' ∈ f3), decide ('k' ∈ f3),
                     decide ('q' ∈ f3)⟩, ep,
                    if jsNumberDefined f5 then jsParseInt f5 else some 0,
                    if jsNumberDefined f6 then jsParseInt f6 else some 1⟩ :=
                  (Except.ok.inj h).symm
                subst hSeq
                obtain ⟨hblen, hrows⟩ := mapM_parseRank_ok_spec _ board hmm2
                refine ⟨⟨by rw [hblen, h8], fun row hrow => (hrows row hrow).1⟩,
                  fun row hrow => (hrows row hrow).2, ?_, ?_⟩
                · by_cases hw : f2 = ['w']
                  · left
                    show (if f2 = ['w'] then 'w' else 'b') = 'w'
                    rw [if_pos hw]
                  · right
                    show (if f2 = ['w'] then 'w' else 'b') = 'b'
                    rw [if_neg hw]
                · intro rc hrc
                  exact parseEp_ok_shape f4 ep hep2 rc hrc
          · rw [if_neg hcol] at h
            exact Except.noConfusion h
    · rw [if_neg h8] at h
      exact Except.noConfusion h
  · exact Except.noConfusion h

/-- `doMove` keeps the board 8x8. -/
theorem doMove_dims8 (S : GameState) (m : Move) (h : dims8 S.board) :
    dims8 (doMove S m).board := by
  rcases m with ⟨⟨fr, fc⟩, ⟨tr, tc⟩, pc, cap, promo, ⟨dbl, ep, cast⟩⟩
  unfold doMove
  dsimp only
  cases ep with
  | false =>
      cases cast with
      | none =>
          cases promo with
          | none => exact dims8_setCell (dims8_setCell h _ _ _) _ _ _
          | some pr => exact dims8_setCell (dims8_setCell h _ _ _) _ _ _
      | some side =>
          cases side with
          | K => exact dims8_setCell (dims8_setCell (dims8_setCell
              (dims8_setCell h _ _ _) _ _ _) _ _ _) _ _ _
          | Q => exact dims8_setCell (dims8_setCell (dims8_setCell
              (dims8_setCell h _ _ _) _ _ _) _ _ _) _ _ _
  | true =>
      cases cast with
      | none =>
          cases promo with
          | none => exact dims8_setCell (dims8_setCell
              (dims8_setCell h _ _ _) _ _ _) _ _ _
          | some pr => exact dims8_setCell (dims8_setCell
              (dims8_setCell h _ _ _) _ _ _) _ _ _
      | some side =>
          cases side with
          | K => exact dims8_setCell (dims8_setCell (dims8_setCell
              (dims8_setCell (dims8_setCell h _ _ _) _ _ _) _ _ _) _ _ _) _ _ _
          | Q => exact dims8_setCell (dims8_setCell (dims8_setCell
              (dims8_setCell (dims8_setCell h _ _ _) _ _ _) _ _ _) _ _ _) _ _ _

theorem board_cells_getCell {B : Board} (hd : dims8 B)
    (h : ∀ row ∈ B, ∀ cl ∈ row, cellOkB cl = true) :
    ∀ r c : Int, cellOkB (getCell B r c) = true := by
  intro r c
  unfold getCell
  split
  · rename_i hin
    have hb8 := hd.1
    have hr : r.toNat < B.length := by omega
    rw [List.getD_eq_getElem B [] hr]
    have hrowmem : B[r.toNat] ∈ B := List.getElem_mem hr
    have hc : c.toNat < (B[r.toNat]).length := by
      rw [hd.2 _ hrowmem]
      omega
    rw [List.getD_eq_getElem _ none hc]
    exact h _ hrowmem _ (List.getElem_mem hc)
  · rfl

theorem getCell_board_cells {B : Board} (hd : dims8 B)
    (h : ∀ r c : Int, cellOkB (getCell B r c) = true) :
    ∀ row ∈ B, ∀ cl ∈ row, cellOkB cl = true := by
  intro row hrow cl hcl
  obtain ⟨i, hi, hieq⟩ := List.getElem_of_mem hrow
  obtain ⟨j, hj, hjeq⟩ := List.getElem_of_mem hcl
  have hi8 : i < 8 := by
    rw [hd.1] at hi
    exact hi
  have hrl : row.length = 8 := hd.2 row hrow
  have hj8 : j < 8 := by
    rw [hrl] at hj
    exact hj
  have hget : getCell B (i : Int) (j : Int) = cl := by
    unfold getCell
    rw [if_pos (by omega)]
    have hti : ((i : Int)).toNat = i := rfl
    have htj : ((j : Int)).toNat = j := rfl
    rw [hti, htj, List.getD_eq_getElem B [] hi, hieq,
      List.getD_eq_getElem row none hj]
    exact hjeq
  rw [← hget]
  exact h (i : Int) (j : Int)

theorem promo_cellOk (pk : Char) (h : pk ∈ promoKinds) :
    cellOkB (some pk.toUpper) = true ∧ cellOkB (some pk.toLower) = true := by
  fin_cases h <;> exact ⟨by decide, by decide⟩

theorem doMove_enPassant (S : GameState) (m : Move) :
    (doMove S m).enPassant =
      (if isKind (getCell S.board m.fromSq.1 m.fromSq.2) 'p' &&
          (m.toSq.1 - m.fromSq.1 = 2 || m.toSq.1 - m.fromSq.1 = -2) then
        some ((m.fromSq.1 + m.toSq.1) / 2, m.fromSq.2)
      else none) := rfl

theorem doMove_activeColor (S : GameState) (m : Move) :
    (doMove S m).activeColor = oppositeColor S.activeColor := rfl

/-- `doMove` on a legal move preserves well-formedness. -/
theorem doMove_wf (S : GameState) (m : Move) (hWF : WF S)
    (hm : m ∈ generateLegalMoves S) : WF (doMove S m) := by
  obtain ⟨hd, hcells, hcolor, _⟩ := hWF
  have hpseudo : m ∈ generatePseudoLegalMoves S := (List.mem_filter.mp hm).1
  obtain ⟨r, c, hr8, hc8, _, hshape⟩ := pseudo_shape S m hpseudo
  obtain ⟨hfrom, hpromo, hdouble⟩ := hshape
  have hfr1 : m.fromSq.1 = (r : Int) := by rw [hfrom]
  have hfr2 : m.fromSq.2 = (c : Int) := by rw [hfrom]
  refine ⟨doMove_dims8 S m hd, ?_, ?_, ?_⟩
  · refine getCell_board_cells (doMove_dims8 S m hd) ?_
    refine @doMove_board_pred (fun cl => cellOkB cl = true) S m
      (board_cells_getCell hd hcells) rfl ?_
    intro pr hpr
    rcases hpromo with hnone | ⟨pk, hpk, hsome⟩
    · rw [hnone] at hpr
      exact Option.noConfusion hpr
    · rw [hsome] at hpr
      cases Option.some.inj hpr
      exact promo_cellOk _ hpk
  · rw [doMove_activeColor]
    unfold oppositeColor
    by_cases hw : S.activeColor = 'w'
    · rw [if_pos hw]
      exact Or.inr rfl
    · rw [if_neg hw]
      exact Or.inl rfl
  · intro rc hrc
    rw [doMove_enPassant S m] at hrc
    by_cases hcond : (isKind (getCell S.board m.fromSq.1 m.fromSq.2) 'p' &&
        (m.toSq.1 - m.fromSq.1 = 2 || m.toSq.1 - m.fromSq.1 = -2)) = true
    · rw [if_pos hcond] at hrc
      cases Option.some.inj hrc
      rw [Bool.and_eq_true] at hcond
      obtain ⟨hkind, hdelta⟩ := hcond
      rw [Bool.or_eq_true, decide_eq_true_eq, decide_eq_true_eq] at hdelta
      rw [hfr1, hfr2] at hkind
      rw [hfr1] at hdelta
      have hdd := hdouble hkind hdelta
      obtain ⟨hsum, _⟩ := hdd
      constructor
      · rcases hsum with h10 | h4
        · right
          show (m.fromSq.1 + m.toSq.1) / 2 = 5
          rw [hfr1, h10]
          try decide
        · left
          show (m.fromSq.1 + m.toSq.1) / 2 = 2
          rw [hfr1, h4]
          try decide
      · constructor
        · show 0 ≤ m.fromSq.2
          rw [hfr2]
          omega
        · show m.fromSq.2 < 8
          rw [hfr2]
          omega
    · rw [if_neg hcond] at hrc
      exact Option.noConfusion hrc

/-- Every reachable state is well-formed. -/
theorem reachable_wf (S : GameState) (h : Reachable S) : WF S := by
  induction h with
  | init fen S h => exact parseFEN_ok_wf fen S h
  | step S m hS hm ih => exact doMove_wf S m ih hm

/-- Round trip on any well-formed state: parsing the serialized FEN
succeeds and reproduces placement, side, castling and en passant. -/
theorem parseFEN_serializeFEN (S : GameState) (h : WF S) :
    ∃ St : GameState, parseFEN (serializeFEN S) = .ok St ∧
      St.board = S.board ∧ St.activeColor = S.activeColor ∧
      St.castling = S.castling ∧ St.enPassant = S.enPassant := by
  obtain ⟨⟨hblen, hrowlen⟩, hcells, hcolor, hep⟩ := h
  have hrowsOk : ∀ row ∈ S.board,
      row.length = 8 ∧ ∀ cl ∈ row, cellOkB cl = true :=
    fun row hrow => ⟨hrowlen row hrow, hcells row hrow⟩
  have hencNe : ∀ w ∈ S.board.map encRow, w ≠ [] := by
    intro w hw
    rcases List.mem_map.mp hw with ⟨row, hrow, rfl⟩
    refine encRowGo_ne_nil row 0 ?_
    rw [hrowlen row hrow]
    decide
  have hencChars : ∀ w ∈ S.board.map encRow, ∀ ch ∈ w,
      isWs ch = false ∧ ch ≠ '/' := by
    intro w hw ch hch
    rcases List.mem_map.mp hw with ⟨row, hrow, rfl⟩
    refine encRowGo_chars row 0 ?_ (hrowsOk row hrow).2 ch hch
    rw [hrowlen row hrow]
    try decide
  have hmapLen : (S.board.map encRow).length = 8 := by
    rw [List.length_map, hblen]
  have hmapNe : S.board.map encRow ≠ [] := by
    intro hnil
    rw [hnil] at hmapLen
    exact absurd hmapLen (by decide)
  obtain ⟨w0, ws, hmapEq⟩ : ∃ w0 ws, S.board.map encRow = w0 :: ws := by
    cases hx : S.board.map encRow with
    | nil => exact absurd hx hmapNe
    | cons a b => exact ⟨a, b, rfl⟩
  have hRne : List.intercalate ['/'] (S.board.map encRow) ≠ [] := by
    rw [hmapEq]
    refine intercalate_ne_nil w0 ws ?_
    refine hencNe w0 ?_
    rw [hmapEq]
    exact List.mem_cons_self _ _
  have hRws : ∀ ch ∈ List.intercalate ['/'] (S.board.map encRow),
      isWs ch = false := by
    intro ch hch
    rcases mem_intercalate_slash _ ch hch with rfl | ⟨w, hw, hchw⟩
    · decide
    · exact (hencChars w hw ch hchw).1
  have hsplitSlash : splitSlash (List.intercalate ['/'] (S.board.map encRow)) =
      S.board.map encRow :=
    splitSlash_intercalate (S.board.map encRow) hmapNe
      (fun w hw ch hch => (hencChars w hw ch hch).2)
  have hcolNe : ([S.activeColor] : List Char) ≠ [] := by simp
  have hcolWs : ∀ ch ∈ [S.activeColor], isWs ch = false := by
    intro ch hch
    rcases List.mem_singleton.mp hch with rfl
    rcases hcolor with h | h <;> rw [h] <;> decide
  obtain ⟨hcastNe, hcastWs, hK, hQ, hk2, hq2⟩ :=
    castStr_spec S.castling.wK S.castling.wQ S.castling.bK S.castling.bQ
      (if ((if S.castling.wK then ['K'] else []) ++
          (if S.castling.wQ then ['Q'] else []) ++
          (if S.castling.bK then ['k'] else []) ++
          (if S.castling.bQ then ['q'] else [])) = [] then ['-']
       else (if S.castling.wK then ['K'] else []) ++
          (if S.castling.wQ then ['Q'] else []) ++
          (if S.castling.bK then ['k'] else []) ++
          (if S.castling.bQ then ['q'] else [])) rfl
  have hepData : parseEp (match S.enPassant with
      | none => ['-']
      | some (r, c) =>
          [Char.ofNat ('a'.toNat + c.toNat), runDigit (8 - r).toNat]) =
        .ok S.enPassant ∧
      (match S.enPassant with
       | none => ['-']
       | some (r, c) =>
           [Char.ofNat ('a'.toNat + c.toNat), runDigit (8 - r).toNat]) ≠ [] ∧
      ∀ ch ∈ (match S.enPassant with
       | none => ['-']
       | some (r, c) =>
           [Char.ofNat ('a'.toNat + c.toNat), runDigit (8 - r).toNat]),
        isWs ch = false := by
    cases hepv : S.enPassant with
    | none =>
        refine ⟨rfl, by simp, ?_⟩
        intro ch hch
        have h2 : ch ∈ ['-'] := hch
        fin_cases h2
        decide
    | some rc =>
        rcases rc with ⟨r, c⟩
        obtain ⟨hr, hc0, hc8⟩ := hep (r, c) hepv
        have h2 := parseEp_encoded r c hr hc0 hc8
        exact ⟨h2.1, by simp, h2.2⟩
  have hser : serializeFEN S =
      List.intercalate ['/'] (S.board.map encRow) ++ ' ' ::
        ([S.activeColor] ++ ' ' ::
          ((if ((if S.castling.wK then ['K'] else []) ++
              (if S.castling.wQ then ['Q'] else []) ++
              (if S.castling.bK then ['k'] else []) ++
              (if S.castling.bQ then ['q'] else [])) = [] then ['-']
            else (if S.castling.wK then ['K'] else []) ++
              (if S.castling.wQ then ['Q'] else []) ++
              (if S.castling.bK then ['k'] else []) ++
              (if S.castling.bQ then ['q'] else [])) ++ ' ' ::
            ((match S.enPassant with
              | none => ['-']
              | some (r, c) =>
                  [Char.ofNat ('a'.toNat + c.toNat),
                   runDigit (8 - r).toNat]) ++ ' ' ::
              (clockChars S.halfmove ++ ' ' :: clockChars S.fullmove)))) := by
    unfold serializeFEN positionKey
    dsimp only
    simp [List.append_assoc]
  have hfields : splitWsF (trimWs (serializeFEN S)) =
      [List.intercalate ['/'] (S.board.map encRow), [S.activeColor],
       (if ((if S.castling.wK then ['K'] else []) ++
           (if S.castling.wQ then ['Q'] else []) ++
           (if S.castling.bK then ['k'] else []) ++
           (if S.castling.bQ then ['q'] else [])) = [] then ['-']
        else (if S.castling.wK then ['K'] else []) ++
           (if S.castling.wQ then ['Q'] else []) ++
           (if S.castling.bK then ['k'] else []) ++
           (if S.castling.bQ then ['q'] else [])),
       (match S.enPassant with
        | none => ['-']
        | some (r, c) =>
            [Char.ofNat ('a'.toNat + c.toNat), runDigit (8 - r).toNat]),
       clockChars S.halfmove, clockChars S.fullmove] := by
    rw [splitWsF_trimWs, hser]
    exact splitWsF_six _ _ _ _ _ _ hRne hRws hcolNe hcolWs hcastNe hcastWs
      hepData.2.1 hepData.2.2 (clockChars_ne_nil _) (clockChars_ws _)
      (clockChars_ne_nil _) (clockChars_ws _)
  have h8 : (splitSlash (List.intercalate ['/']
      (S.board.map encRow))).length = 8 := by
    rw [hsplitSlash]
    exact hmapLen
  have hmapM : (splitSlash (List.intercalate ['/']
      (S.board.map encRow))).mapM parseRank = .ok S.board := by
    rw [hsplitSlash]
    exact mapM_parseRank_encRow S.board hrowsOk
  have hcol : (([S.activeColor] : List Char) = ['w'] ||
      [S.activeColor] = ['b']) = true := by
    rcases hcolor with h | h <;> rw [h] <;> decide
  have hok := parseFEN_six_ok (serializeFEN S) _ _ _ _ _ _ S.board S.enPassant
    hfields h8 hmapM hcol hepData.1
  refine ⟨_, hok, rfl, ?_, ?_, rfl⟩
  · by_cases hw : S.activeColor = 'w'
    · show (if ([S.activeColor] : List Char) = ['w'] then 'w' else 'b') =
        S.activeColor
      rw [hw]
      decide
    · have hb : S.activeColor = 'b' := by
        rcases hcolor with h | h
        · exact absurd h hw
        · exact h
      show (if ([S.activeColor] : List Char) = ['w'] then 'w' else 'b') =
        S.activeColor
      rw [hb]
      decide
  · show (⟨decide ('K' ∈ _), decide ('Q' ∈ _), decide ('k' ∈ _),
      decide ('q' ∈ _)⟩ : Castling) = S.castling
    rw [hK, hQ, hk2, hq2]

/-- C2: for every reachable position, parsing the serialized 6-field FEN
text yields a position with the same board placement, side to move,
castling rights and en-passant target. -/
theorem fen_roundtrip_reachable (S : GameState) (h : Reachable S) :
    ∃ St : GameState, parseFEN (serializeFEN S) = .ok St ∧
      St.board = S.board ∧ St.activeColor = S.activeColor ∧
      St.castling = S.castling ∧ St.enPassant = S.enPassant :=
  parseFEN_serializeFEN S (reachable_wf S h)

theorem fen_roundtrip_reachable_witness :
    ∃ St : GameState, parseFEN (serializeFEN startState) = .ok St ∧
      St.board = startState.board ∧
      St.activeColor = startState.activeColor ∧
      St.castling = startState.castling ∧
      St.enPassant = startState.enPassant :=
  fen_roundtrip_reachable startState
    (Reachable.init START_FEN startState (by rfl))

end Kaiser
